import Mathlib

/-!
Verification of the h2sql question-to-SQL pipeline.

The definitions below are a shallow embedding of the core pipeline of
`app/projects/services/data_upload_api.py` and of the two database
connectors (`app/projects/connectors/oracle.py`,
`app/projects/connectors/postgres.py`):

* SQL cleanup performed by `generate_sql_from_question` (code fences,
  trailing `UNION [ALL]`, duplicate `SELECT` statements);
* the Arabic keyword fallback of `generate_sql_from_question`;
* the hallucination correction of `execute_query` (mapping hash-suffixed
  physical table names back over generic names after FROM/JOIN/UPDATE/INTO);
* the SQL normalisation done by `execute_query` before execution;
* `generate_table_name_from_filename`;
* `generate_statistics`;
* `OracleConnector.execute_query` and `PostgresConnector.execute_query`,
  with the database driver abstracted as an environment of possible
  driver outcomes.

Strings are modelled as `List Char`.  Python regular expressions used by
the source are compiled by hand into explicit scanning functions; the
word class `\w` (with Unicode semantics: ASCII alphanumerics, underscore
and non-ASCII letters such as the Arabic used by the fallback) is
modelled by `isWordChar`, and `\s` by `isSpc` (ASCII whitespace).
Python numbers are modelled as rationals, so float arithmetic is exact
here; none of the verified properties depend on rounding.
-/

/-- Python `\s` whitespace class (ASCII part), also used by `str.strip`. -/

def isSpc (c : Char) : Bool :=
  c = ' ' || c = '\t' || c = '\n' || c = '\r' || c = '\x0b' || c = '\x0c'

/-- Python `\w` word class: ASCII alphanumerics, underscore, and any
non-ASCII character (approximating Unicode word characters; the only
non-ASCII characters reaching the regexes of the source are Arabic
letters, which are word characters in Python as well). -/
def isWordChar (c : Char) : Bool :=
  c.isAlphanum || c = '_' || 128 ≤ c.toNat

/-- Python `str.strip()`: remove leading and trailing whitespace. -/
def pyStrip (s : List Char) : List Char :=
  ((s.dropWhile isSpc).reverse.dropWhile isSpc).reverse

/-- Exact prefix test: `startsWithSeg s pat` holds when `pat` is a prefix of `s`. -/
def startsWithSeg : List Char → List Char → Bool
  | _, [] => true
  | [], _ :: _ => false
  | c :: cs, d :: ds => c = d && startsWithSeg cs ds

/-- Substring test, Python `pat in s`. -/
def containsSeg (s pat : List Char) : Bool :=
  match s with
  | [] => startsWithSeg [] pat
  | c :: cs => startsWithSeg (c :: cs) pat || containsSeg cs pat

/-- Python `str.replace(a, repl)` for a single-character needle `a` (the
source only calls `.replace` with the one-character needles `'\n'` and
`';'`; on a one-character needle `str.replace` substitutes every
occurrence of that character). -/
def pyReplaceChar (a : Char) (repl : List Char) : List Char → List Char
  | [] => []
  | c :: cs =>
    if c = a then repl ++ pyReplaceChar a repl cs
    else c :: pyReplaceChar a repl cs

/-- The SQL normalisation performed by `execute_query` before running the
statement: `llm_generated_sql.replace('\n', ' ').replace(';', '').strip()`. -/
def normalizeSql (s : List Char) : List Char :=
  pyStrip (pyReplaceChar ';' [] (pyReplaceChar '\n' [' '] s))

/-! ## Result values and the statistics engine (`generate_statistics`) -/

/-- Values in a result row, as seen by `generate_statistics`: Python
numbers (`int`/`float`, modelled exactly as rationals), strings, and
`None`. -/
inductive PyVal where
  | vstr (s : String)
  | vnum (q : ℚ)
  | vnull
deriving DecidableEq

/-- A result row as built by `execute_query`: a dict from column name to
value, modelled as an association list in column order. -/
abbrev Row := List (String × PyVal)

/-- Python `row.get(k)` (first binding wins; dict keys are unique). -/
def rowGet (row : Row) (k : String) : Option PyVal :=
  match row with
  | [] => none
  | (k', v) :: rest => if k' = k then some v else rowGet rest k

/-- Python `str(v)` as far as the statistics code uses it.  The rendering
of numbers is never relied upon by any verified property. -/
def pyStr : PyVal → String
  | .vstr s => s
  | .vnum q => toString q
  | .vnull => "None"

/-- The `QueryFilterData` record produced by `extract_query_metadata`. -/
structure QueryFilterData where
  time_period : Option String
  group_by : Option (List String)
  metrics : Option (List String)
  filters : Option (List (String × String))

/-- Python truthiness of `query_filter_data.group_by` (`None` and the
empty list are falsy). -/
def qfdGroupByTruthy (q : QueryFilterData) : Bool :=
  match q.group_by with
  | some (_ :: _) => true
  | _ => false

/-- The `Statistics` record returned by `generate_statistics`; the keys of
its `additional_stats` dict are modelled as the `addl_` fields. -/
structure Statistics where
  total_rows : Nat
  total_categories : Option Nat
  grand_total : Option ℚ
  highest_category : Option (String × PyVal)
  lowest_category : Option (String × PyVal)
  average_per_category : Option ℚ
  addl_note : Option String
  addl_numeric_columns : List String
  addl_category_columns : List String
  addl_sample_row : Option Row
deriving DecidableEq

/-- Numeric columns: `col in db_result[0] and isinstance(db_result[0][col], (int, float))`. -/
def numericCols (db_result : List Row) (columns : List String) : List String :=
  columns.filter fun col =>
    match db_result with
    | [] => false
    | r0 :: _ =>
      match rowGet r0 col with
      | some (.vnum _) => true
      | _ => false

/-- Category columns: the columns that are not numeric. -/
def categoryCols (db_result : List Row) (columns : List String) : List String :=
  columns.filter fun col => col ∉ numericCols db_result columns

/-- The numeric value of `row[value_col]` when present and numeric. -/
def numAt (value_col : String) (row : Row) : Option ℚ :=
  match rowGet row value_col with
  | some (.vnum q) => some q
  | _ => none

/-- `sum(row.get(value_col, 0) for row in db_result if
isinstance(row.get(value_col), (int, float)))`. -/
def grandTotalVal (value_col : String) (db_result : List Row) : ℚ :=
  (db_result.filterMap (numAt value_col)).sum

/-- The sort key of `generate_statistics`:
`x.get(value_col, 0) if isinstance(x.get(value_col), (int, float)) else 0`. -/
def statKey (value_col : String) (row : Row) : ℚ :=
  match rowGet row value_col with
  | some (.vnum q) => q
  | _ => 0

/-- Insert into a descending list, before the first element of smaller or
equal key (so an element placed later keeps its position after earlier
equals: stability). -/
def insertDesc {α : Type} (key : α → ℚ) (x : α) : List α → List α
  | [] => [x]
  | y :: ys => if key y ≤ key x then x :: y :: ys else y :: insertDesc key x ys

/-- Stable descending sort; extensionally equal to Python
`sorted(l, key=key, reverse=True)` (which is a stable sort). -/
def sortDesc {α : Type} (key : α → ℚ) : List α → List α
  | [] => []
  | x :: xs => insertDesc key x (sortDesc key xs)

/-- The five category statistics of `generate_statistics` (the block
guarded by `if query_filter_data.group_by and category_cols:`). -/
structure CatStats where
  total_categories : Option Nat
  grand_total : Option ℚ
  highest_category : Option (String × PyVal)
  lowest_category : Option (String × PyVal)
  average_per_category : Option ℚ

/-- Category statistics computation of `generate_statistics`. -/
def catStats (db_result : List Row) (columns : List String)
    (qfd : QueryFilterData) : CatStats :=
  if qfdGroupByTruthy qfd = true then
    match categoryCols db_result columns with
    | [] => ⟨none, none, none, none, none⟩
    | category_col :: _ =>
      match numericCols db_result columns with
      | [] => ⟨some db_result.length, none, none, none, none⟩
      | value_col :: _ =>
        let gt := grandTotalVal value_col db_result
        match sortDesc (statKey value_col) db_result with
        | [] => ⟨some db_result.length, some gt, none, none, none⟩
        | hd :: tl =>
          let lowest := (hd :: tl).getLast (List.cons_ne_nil hd tl)
          ⟨some db_result.length, some gt,
           some (pyStr ((rowGet hd category_col).getD (.vstr "Unknown")),
                 (rowGet hd value_col).getD (.vnum 0)),
           some (pyStr ((rowGet lowest category_col).getD (.vstr "Unknown")),
                 (rowGet lowest value_col).getD (.vnum 0)),
           if 0 < db_result.length then some (gt / db_result.length) else none⟩
  else ⟨none, none, none, none, none⟩

/-- `generate_statistics(db_result, columns, query_filter_data)`. -/
def generateStatistics (db_result : List Row) (columns : List String)
    (qfd : QueryFilterData) : Statistics :=
  match db_result with
  | [] =>
    { total_rows := 0, total_categories := some 0, grand_total := some 0,
      highest_category := none, lowest_category := none,
      average_per_category := none,
      addl_note := some "No data returned from query",
      addl_numeric_columns := [], addl_category_columns := [],
      addl_sample_row := none }
  | r0 :: _ =>
    let cs := catStats db_result columns qfd
    { total_rows := db_result.length,
      total_categories := cs.total_categories,
      grand_total := cs.grand_total,
      highest_category := cs.highest_category,
      lowest_category := cs.lowest_category,
      average_per_category := cs.average_per_category,
      addl_note := none,
      addl_numeric_columns := numericCols db_result columns,
      addl_category_columns := categoryCols db_result columns,
      addl_sample_row := some r0 }

/-- Scenario D input: five category rows whose numeric column sums to 500. -/
def c4Rows5 : List Row :=
  [[("CAT", .vstr "a"), ("V", .vnum 100)],
   [("CAT", .vstr "b"), ("V", .vnum 100)],
   [("CAT", .vstr "c"), ("V", .vnum 100)],
   [("CAT", .vstr "d"), ("V", .vnum 100)],
   [("CAT", .vstr "e"), ("V", .vnum 100)]]

/-- Scenario D metadata: a declared group-by. -/
def c4Qfd : QueryFilterData := ⟨none, some ["CAT"], none, none⟩

/-! ## Fallback SQL synthesis (`generate_sql_from_question`, except branch) -/

/-- A column of the schema dict passed to `generate_sql_from_question`:
its database name and its description text. -/
structure FallbackCol where
  name : String
  description : String

/-- The name of the last column of `cols` whose description contains `kw`
(the source loop overwrites its variable on every match, so the last
matching column wins). -/
def lastColWith (kw : String) (cols : List FallbackCol) : Option String :=
  match cols with
  | [] => none
  | c :: rest =>
    match lastColWith kw rest with
    | some n => some n
    | none =>
      if containsSeg c.description.data kw.data then some c.name else none

/-- The Arabic keyword fallback of `generate_sql_from_question`: the value
of `fallback_sql` at the end of the `except` branch (`none` both when no
trigger keyword fires and when the schema dict is empty, in which case
`next(iter(schema_dict.keys()))` raises and the inner handler swallows
the error, leaving `fallback_sql = None`). -/
def fallbackSql (question : String)
    (schema : List (String × List FallbackCol)) : Option String :=
  match schema with
  | [] => none
  | (table_name, cols) :: _ =>
    let salary_col := lastColWith "راتب" cols
    let job_col := lastColWith "وظيف" cols
    match containsSeg question.data "متوسط".data, salary_col with
    | true, some sc =>
      let base := "SELECT AVG(\"" ++ sc ++ "\") AS متوسط_الراتب FROM \""
        ++ table_name ++ "\""
      if containsSeg question.data "قسم".data
          || containsSeg question.data "موارد".data then
        match job_col with
        | some jc =>
          some (base ++ " WHERE \"" ++ jc ++ "\" LIKE '%الموارد البشرية%'")
        | none => some base
      else some base
    | _, _ =>
      match containsSeg question.data "مجموع".data, salary_col with
      | true, some sc =>
        some ("SELECT SUM(\"" ++ sc ++ "\") AS مجموع_الرواتب FROM \""
          ++ table_name ++ "\"")
      | _, _ =>
        if containsSeg question.data "عدد".data then
          some ("SELECT COUNT(*) AS عدد_الموظفين FROM \"" ++ table_name ++ "\"")
        else none

/-- Failure path of `generate_sql_from_question`: when generation raised,
either the fallback supplies the returned SQL, or an `HTTPException`
(status 500) is raised to the caller, modelled as `Except.error`. -/
def generateSqlFailurePath (question : String)
    (schema : List (String × List FallbackCol)) : Except String String :=
  match fallbackSql question schema with
  | some sql => Except.ok sql
  | none => Except.error "HTTP 500: Failed to generate SQL from question"

/-! ## SQL cleanup of `generate_sql_from_question` (step 5) -/

/-- Case-insensitive prefix strip: consume `pat` (compared through
`Char.toLower`, the ASCII folding used by `re.IGNORECASE` on the
source's patterns) from the front of `s` and return the remainder. -/
def ciStripPre : List Char → List Char → Option (List Char)
  | [], s => some s
  | _ :: _, [] => none
  | p :: ps, c :: cs => if c.toLower = p.toLower then ciStripPre ps cs else none

/-- Python `s.endswith(pat)` as a segment test. -/
def endsWithSeg (s pat : List Char) : Bool :=
  startsWithSeg s.reverse pat.reverse

/-- The code-fence removal `re.sub(r"^```(sql)?|```$", "", s)`: one
optional match at the start (preferring the longer `(sql)?` branch) and
one at the end (`$` also matches just before a final newline). -/
def stripFences (s : List Char) : List Char :=
  let s1 :=
    if startsWithSeg s ("```sql").data then s.drop 6
    else if startsWithSeg s ("```").data then s.drop 3
    else s
  if endsWithSeg s1 ("```").data then s1.take (s1.length - 3)
  else if endsWithSeg s1 ("```" ++ "\n").data then
    s1.take (s1.length - 4) ++ ['\n']
  else s1

/-- The trailing-union removal
`re.sub(r'\s+(UNION\s*ALL?)\s*$', '', s, flags=re.IGNORECASE)`, parsed
from the right.  Note that the quantifier in `ALL?` binds only the last
`L`, so the pattern demands at least `UNION…AL`: a bare dangling `UNION`
is never matched (this is the defect behind claim C1). -/
def subTrailUnion (s : List Char) : List Char :=
  let r1 := s.reverse.dropWhile isSpc
  let r2opt : Option (List Char) :=
    match ciStripPre ('l' :: 'l' :: 'a' :: []) r1 with
    | some t => some t
    | none => ciStripPre ('l' :: 'a' :: []) r1
  match r2opt with
  | none => s
  | some r2 =>
    let r3 := r2.dropWhile isSpc
    match ciStripPre ('n' :: 'o' :: 'i' :: 'n' :: 'u' :: []) r3 with
    | none => s
    | some r4 =>
      let r5 := r4.dropWhile isSpc
      if r5 = r4 then s else r5.reverse

/-- Start positions of the matches of `(?i)\bSELECT\b` (scanning every
position; matches of this pattern cannot overlap, so this equals
`re.finditer`). -/
def findSelects (prevW : Bool) (i : Nat) (s : List Char) : List Nat :=
  match s with
  | [] => []
  | c :: cs =>
    let hit :=
      !prevW &&
      (match ciStripPre ("select").data (c :: cs) with
       | some rest =>
         match rest with
         | [] => true
         | d :: _ => !isWordChar d
       | none => false)
    let tail := findSelects (isWordChar c) (i + 1) cs
    if hit then i :: tail else tail

/-- Lines 1723-1733 of `generate_sql_from_question`: strip a trailing
`UNION…AL[L]` and whitespace; then, when at least two `SELECT` keywords
remain, keep only the text from the first to the second `SELECT` and
strip a trailing `UNION…AL[L]` and whitespace again. -/
def fixDuplicateSelects (s : List Char) : List Char :=
  let s1 := pyStrip (subTrailUnion s)
  match findSelects false 0 s1 with
  | p1 :: p2 :: _ => pyStrip (subTrailUnion (pyStrip ((s1.drop p1).take (p2 - p1))))
  | _ => s1

/-- The full cleanup of step 5 (lines 1715-1733): strip, remove code
fences, strip, and fix trailing unions and duplicate `SELECT`s. -/
def cleanSqlQuery (s : List Char) : List Char :=
  fixDuplicateSelects (pyStrip (stripFences (pyStrip s)))

/-! ## Table name generation (`generate_table_name_from_filename`) and the
hallucination-corrector name mapping of `execute_query` (step 3.5) -/

/-- Python `s.upper()` (ASCII folding, see the module comment). -/
def pyUpperSeg (s : List Char) : List Char := s.map Char.toUpper

/-- Python `filename.rsplit('.', 1)[0]`. -/
def pyStem (f : List Char) : List Char :=
  if f.contains '.' then ((f.reverse.dropWhile (fun c => c != '.')).drop 1).reverse
  else f

/-- Hexadecimal digit of the pattern `[A-F0-9]` under `re.IGNORECASE`,
that is `0`-`9`, `A`-`F` (codes 65-70) or `a`-`f` (codes 97-102). -/
def isHexDigitCh (c : Char) : Bool :=
  c.isDigit || (65 ≤ c.toNat && c.toNat ≤ 70) || (97 ≤ c.toNat && c.toNat ≤ 102)

/-- Upper-case hexadecimal digit `[A-F0-9]`. -/
def isUpperHexCh (c : Char) : Bool :=
  c.isDigit || (65 ≤ c.toNat && c.toNat ≤ 70)

/-- Lower-case hexadecimal digit `[a-f0-9]` (the alphabet of
`str(uuid.uuid4())[:8]`). -/
def isLowerHexCh (c : Char) : Bool :=
  c.isDigit || (97 ≤ c.toNat && c.toNat ≤ 102)

/-- The base-name extraction
`re.sub(r'_[A-F0-9]{8}$', '', actual_name, flags=re.IGNORECASE)`: drop a
trailing underscore followed by exactly eight hexadecimal characters, if
present (a match of this pattern must end at the end of the string, so
there is at most one). -/
def stripHexSuffix (name : List Char) : List Char :=
  let r := name.reverse
  if (r.take 8).length = 8 && (r.take 8).all isHexDigitCh &&
      (match r.drop 8 with
       | '_' :: _ => true
       | _ => false) then
    (r.drop 9).reverse
  else name

/-- `table_name_mapping[key] = value` on a Python dict preserving
insertion order: update in place when the key exists, append otherwise. -/
def insertOrUpdate (k v : List Char) (m : List (List Char × List Char)) :
    List (List Char × List Char) :=
  match m with
  | [] => [(k, v)]
  | (k', v') :: rest =>
    if k' = k then (k, v) :: rest else (k', v') :: insertOrUpdate k v rest

/-- The mapping-building loop of `execute_query` (step 3.5): for every
table name, strip the hash suffix; when stripping changed the name,
record `base.upper() -> actual`. -/
def buildMapping (names : List (List Char)) : List (List Char × List Char) :=
  names.foldl
    (fun m name =>
      if name ≠ [] then
        if stripHexSuffix name ≠ name then
          insertOrUpdate (pyUpperSeg (stripHexSuffix name)) name m
        else m
      else m) []

/-- `generate_table_name_from_filename`, with the fresh
`str(uuid.uuid4())` passed explicitly; `none` models the `IndexError`
raised by `table_name[0]` on an empty stem.  The character predicates
are the ASCII fragments of Python's `str.isalnum`/`str.isalpha` (a
non-ASCII letter is mapped to `_` here but kept by Python; the stated
conclusions hold in both readings). -/
def generateTableName (filename uuidStr : List Char) : Option (List Char) :=
  let base := pyStem filename
  let tn := base.map (fun c => if c.isAlphanum then c else '_')
  match tn with
  | [] => none
  | t0 :: _ =>
    let tn2 := if t0.isAlpha then tn else 't' :: '_' :: tn
    some (pyUpperSeg (tn2 ++ '_' :: uuidStr.take 8))

/-! ## The hallucination-correction rewriting of `execute_query` (step 3.5)

`re.sub(rf'\bKW\s+{generic}\b', f'KW "{actual}"', sql, flags=re.IGNORECASE)`
for `KW` among FROM, JOIN, UPDATE, INTO.  A match of this pattern at a
given position is: a word boundary (the previous character, tracked by
the scanner as `pw`, is not a word character), the keyword
case-insensitively, at least one whitespace character (the greedy `\s+`
backtracks only to positions where a word character follows, so it
always takes the maximal run), the generic name case-insensitively, and
a trailing word boundary.  `re.sub` replaces the non-overlapping matches
scanning left to right, resuming after each match's end in the original
text. -/

/-- Pointwise case-insensitive equality of equal-length segments. -/
def ciEqSeg : List Char → List Char → Bool
  | [], [] => true
  | a :: as, b :: bs => (a.toLower = b.toLower) && ciEqSeg as bs
  | _, _ => false

/-- Pointwise similarity used to transport matches: equal up to case, or
both whitespace. -/
def simSeg : List Char → List Char → Bool
  | [], [] => true
  | a :: as, b :: bs =>
    ((a.toLower = b.toLower) || (isSpc a && isSpc b)) && simSeg as bs
  | _, _ => false

/-- Trailing word boundary `\b` after the generic name: the next
character, if any, is not a word character. -/
def boundB : List Char → Bool
  | [] => true
  | d :: _ => !isWordChar d

/-- A match of `KW\s+base\b` starting at the head of `s` (the leading
word boundary is checked by the scanner), returning the number of
characters consumed. -/
def matchAt (kw base s : List Char) : Option Nat :=
  match ciStripPre kw s with
  | none => none
  | some r1 =>
    if r1.takeWhile isSpc = [] then none
    else
      match ciStripPre base (r1.dropWhile isSpc) with
      | none => none
      | some r3 =>
        if boundB r3 then
          some (kw.length + (r1.takeWhile isSpc).length + base.length)
        else none

/-- The literal replacement text `KW "actual"`. -/
def replSeg (kw act : List Char) : List Char :=
  kw ++ ' ' :: '"' :: act ++ ['"']

/-- Fuel-indexed body of the substitution scan; the fuel is an upper bound
on the remaining length, so the recursion is structural and the function
evaluates inside the kernel. -/
def substKwF (kw base act : List Char) : Nat → Bool → List Char → List Char
  | 0, _, s => s
  | _ + 1, _, [] => []
  | f + 1, pw, c :: cs =>
    if pw then c :: substKwF kw base act f (isWordChar c) cs
    else
      match matchAt kw base (c :: cs) with
      | some n =>
          replSeg kw act ++
            substKwF kw base act f
              (isWordChar (((c :: cs).take n).getLastD ' ')) ((c :: cs).drop n)
      | none => c :: substKwF kw base act f (isWordChar c) cs

/-- One `re.sub(rf'\bKW\s+{base}\b', f'KW "{act}"', ·, re.IGNORECASE)` pass.
`pw` says whether the previous character of the original text is a word
character (so `\b` fails at the current position); scanning resumes
after each match's end in the original text, whose last matched
character determines the next boundary state. -/
def substKw (kw base act : List Char) (pw : Bool) (s : List Char) : List Char :=
  substKwF kw base act s.length pw s

/-- No boundary-respecting match of `kw\s+base\b` starts at any position
of `s`, given the boundary state `pw` before `s`. -/
def noMatchB (kw base : List Char) : Bool → List Char → Bool
  | _, [] => true
  | pw, c :: cs =>
    (pw || (matchAt kw base (c :: cs)).isNone) && noMatchB kw base (isWordChar c) cs

/-- The boundary state after scanning `x` starting from state `pw`. -/
def lastWord (pw : Bool) (x : List Char) : Bool :=
  match x.getLast? with
  | some c => isWordChar c
  | none => pw

/-- The four keyword patterns of step 3.5, in the order the code applies
them. -/
def tableKeywords : List (List Char) :=
  ["FROM".data, "JOIN".data, "UPDATE".data, "INTO".data]

/-- The four `re.sub` statements run for one `(generic, actual)` mapping
entry, in source order: FROM, then JOIN, then UPDATE, then INTO. -/
def applyEntry (sql : List Char) (e : List Char × List Char) : List Char :=
  substKw "INTO".data e.1 e.2 false
    (substKw "UPDATE".data e.1 e.2 false
      (substKw "JOIN".data e.1 e.2 false
        (substKw "FROM".data e.1 e.2 false sql)))

/-- The hallucination-correction loop over the mapping entries in
insertion order. -/
def correctSql (m : List (List Char × List Char)) (sql : List Char) : List Char :=
  m.foldl applyEntry sql

/-! ## Connector `execute_query` (oracle.py / postgres.py)

The driver is abstracted as a function from a query string to either an
error message (a raised driver exception, `str(e)`) or a cursor result:
the `description` column names and the fetched rows.  Everything inside
the Python `try` block is modelled inside `Except String`; the
per-operation failure modes (`KeyError` on the unguarded Oracle
`statistics[col]["avg"]` update, `IndexError`/`TypeError` on
`stats_row[i]`, pandas `ValueError` on a row/column shape mismatch) are
explicit `.error` results.  The `markdown` field (a pandas rendering of
the same frame) is not modelled; no claim refers to it. -/

/-- `TableColumn` of models.py, restricted to the fields `execute_query`
reads. -/
structure TableColumn where
  name : String
  aggregation : List String
deriving DecidableEq

/-- `TableSchema` of models.py, restricted to the fields `execute_query`
reads. -/
structure TableSchema where
  name : String
  columns : List TableColumn
deriving DecidableEq

/-- The statistics dict: column name to a dict of `min`/`max`/`avg`/`sum`
values, both in insertion order. -/
abbrev StatsDict := List (String × List (String × PyVal))

/-- `ResultSet` as built by `execute_query` (markdown omitted). -/
structure ResultSet where
  columns : List String
  rows : List (List String)
  statistics : StatsDict
deriving DecidableEq

/-- An Oracle connection: running a query yields the cursor description
and all rows, or raises (an error message). -/
structure OracleConn where
  run : String → Except String (List String × List (List PyVal))

/-- A Postgres connection: the main query runs on a `RealDictCursor`
(rows are dicts), the statistics queries on a plain cursor. -/
structure PostgresConn where
  runDict : String → Except String (List String × List Row)
  run : String → Except String (List String × List (List PyVal))

/-- The character class `[A-Za-z0-9_]` of the table-name capture group. -/
def isAsciiWord (c : Char) : Bool :=
  c.isAlphanum || c = '_'

/-- `re.match(r"\s*SELECT\s+\*\s+FROM\s+([A-Za-z0-9_]+)", query,
re.IGNORECASE)`, returning the captured table name. -/
def parseSelectStar (q : List Char) : Option (List Char) :=
  match ciStripPre "SELECT".data (q.dropWhile isSpc) with
  | none => none
  | some r1 =>
    if r1.takeWhile isSpc = [] then none
    else
      match r1.dropWhile isSpc with
      | '*' :: r2 =>
        if r2.takeWhile isSpc = [] then none
        else
          match ciStripPre "FROM".data (r2.dropWhile isSpc) with
          | none => none
          | some r3 =>
            if r3.takeWhile isSpc = [] then none
            else
              match (r3.dropWhile isSpc).takeWhile isAsciiWord with
              | [] => none
              | c :: cs => some (c :: cs)
      | _ => none

/-- `s.lower()` on the ASCII fragment used for name comparison. -/
def pyLowerSeg (s : List Char) : List Char := s.map Char.toLower

/-- `col.aggregation and any(agg.upper() in ('MIN', 'MAX') for agg in
col.aggregation)`: a genuine tuple-membership test. -/
def aggMatchMinMax (col : TableColumn) : Bool :=
  col.aggregation.any (fun agg =>
    pyUpperSeg agg.data == "MIN".data || pyUpperSeg agg.data == "MAX".data)

/-- `agg.upper() in ('AVG')`: `('AVG')` is just the string `'AVG'`, so
this is a substring test, true for e.g. `'A'`, `'AV'` or `''`. -/
def aggMatchAvg (col : TableColumn) : Bool :=
  col.aggregation.any (fun agg => containsSeg "AVG".data (pyUpperSeg agg.data))

/-- `agg.upper() in ('SUM')`: likewise a substring test. -/
def aggMatchSum (col : TableColumn) : Bool :=
  col.aggregation.any (fun agg => containsSeg "SUM".data (pyUpperSeg agg.data))

def minMaxCols (cols : List TableColumn) : List String :=
  (cols.filter aggMatchMinMax).map TableColumn.name

def avgCols (cols : List TableColumn) : List String :=
  (cols.filter aggMatchAvg).map TableColumn.name

def sumCols (cols : List TableColumn) : List String :=
  (cols.filter aggMatchSum).map TableColumn.name

/-- The `MIN(col), MAX(col)` statistics query string. -/
def minMaxQuery (cols : List String) (t : String) : String :=
  "SELECT " ++ String.intercalate ", "
    (cols.map (fun c => "MIN(" ++ c ++ "), MAX(" ++ c ++ ")")) ++ " FROM " ++ t

/-- The `AVG(col)` statistics query string. -/
def avgQuery (cols : List String) (t : String) : String :=
  "SELECT " ++ String.intercalate ", "
    (cols.map (fun c => "AVG(" ++ c ++ ")")) ++ " FROM " ++ t

/-- The `SUM(col)` statistics query string. -/
def sumQuery (cols : List String) (t : String) : String :=
  "SELECT " ++ String.intercalate ", "
    (cols.map (fun c => "SUM(" ++ c ++ ")")) ++ " FROM " ++ t

/-- Python dict read `d[k]` as an option. -/
def getEntry {β : Type} (k : String) : List (String × β) → Option β
  | [] => none
  | (k', v) :: rest => if k' = k then some v else getEntry k rest

/-- Python dict write `d[k] = v`, preserving insertion order. -/
def updEntry {β : Type} (k : String) (v : β) :
    List (String × β) → List (String × β)
  | [] => [(k, v)]
  | (k', v') :: rest =>
    if k' = k then (k, v) :: rest else (k', v') :: updEntry k v rest

/-- `stats_row[i]` where `stats_row` is `cursor.fetchone()`: `None`
subscripting and out-of-range indexing raise. -/
def pyTupleIndex (row : Option (List PyVal)) (i : Nat) : Except String PyVal :=
  match row with
  | none => .error "TypeError: NoneType object is not subscriptable"
  | some r =>
    match r.get? i with
    | some v => .ok v
    | none => .error "IndexError: tuple index out of range"

/-- The `for i, col in enumerate(min_max_cols)` loop:
`statistics[col] = {"min": stats_row[i*2], "max": stats_row[i*2+1]}`. -/
def minMaxLoop (row : Option (List PyVal)) :
    Nat → List String → StatsDict → Except String StatsDict
  | _, [], st => .ok st
  | i, col :: rest, st =>
    match pyTupleIndex row (i * 2) with
    | .error e => .error e
    | .ok mn =>
      match pyTupleIndex row (i * 2 + 1) with
      | .error e => .error e
      | .ok mx =>
        minMaxLoop row (i + 1) rest (updEntry col [("min", mn), ("max", mx)] st)

/-- The avg/sum loops, `statistics[col][statKey] = stats_row[i]`.  Both
dialects share the shape; `guarded` is the Postgres
`if col not in statistics: statistics[col] = {}` guard, absent in
Oracle, where a column in `avg_cols`/`sum_cols` but not in
`min_max_cols` raises `KeyError`. -/
def aggLoop (statKey : String) (guarded : Bool) (row : Option (List PyVal)) :
    Nat → List String → StatsDict → Except String StatsDict
  | _, [], st => .ok st
  | i, col :: rest, st =>
    match pyTupleIndex row i with
    | .error e => .error e
    | .ok v =>
      match getEntry col st with
      | some d =>
        aggLoop statKey guarded row (i + 1) rest
          (updEntry col (updEntry statKey v d) st)
      | none =>
        if guarded then
          aggLoop statKey guarded row (i + 1) rest
            (updEntry col (updEntry statKey v []) st)
        else .error ("KeyError: " ++ col)

/-- `cursor2.execute(q); cursor2.fetchone()`. -/
def fetchOne (run : String → Except String (List String × List (List PyVal)))
    (q : String) : Except String (Option (List PyVal)) :=
  match run q with
  | .error e => .error e
  | .ok (_, rows) => .ok rows.head?

/-- The `if min_max_cols:` statistics block. -/
def minMaxBlock
    (run : String → Except String (List String × List (List PyVal)))
    (mmc : List String) (t : String) : Except String StatsDict :=
  if mmc.isEmpty then .ok [] else
  match fetchOne run (minMaxQuery mmc t) with
  | .error e => .error e
  | .ok row => minMaxLoop row 0 mmc []

/-- The `if avg_cols:` / `if sum_cols:` statistics blocks. -/
def aggBlock (statKey : String) (guarded : Bool)
    (run : String → Except String (List String × List (List PyVal)))
    (q : String) (cols : List String) (st : StatsDict) :
    Except String StatsDict :=
  if cols.isEmpty then .ok st else
  match fetchOne run q with
  | .error e => .error e
  | .ok row => aggLoop statKey guarded row 0 cols st

/-- The three statistics blocks for a matched table schema. -/
def statsForSchema
    (run : String → Except String (List String × List (List PyVal)))
    (guarded : Bool) (tschema : TableSchema) (table_name : String) :
    Except String StatsDict :=
  let mmc := minMaxCols tschema.columns
  let avc := avgCols tschema.columns
  let smc := sumCols tschema.columns
  match minMaxBlock run mmc table_name with
  | .error e => .error e
  | .ok st1 =>
    match aggBlock "avg" guarded run (avgQuery avc table_name) avc st1 with
    | .error e => .error e
    | .ok st2 => aggBlock "sum" guarded run (sumQuery smc table_name) smc st2

/-- The statistics step of OracleConnector.execute_query: table names are
compared with `.upper()`. -/
def oracleStatistics (env : OracleConn) (query : String)
    (metadata : List TableSchema) (columns_data : List String) :
    Except String StatsDict :=
  if columns_data.isEmpty then .ok [] else
  match parseSelectStar query.data with
  | none => .ok []
  | some tchars =>
    match metadata.find?
        (fun tbl => pyUpperSeg tbl.name.data == pyUpperSeg tchars) with
    | none => .ok []
    | some tschema =>
      statsForSchema env.run false tschema (String.mk tchars)

/-- The statistics step of PostgresConnector.execute_query: table names
are compared with `.lower()`, and the dict updates are guarded. -/
def postgresStatistics (env : PostgresConn) (query : String)
    (metadata : List TableSchema) (columns_data : List String) :
    Except String StatsDict :=
  if columns_data.isEmpty then .ok [] else
  match parseSelectStar query.data with
  | none => .ok []
  | some tchars =>
    match metadata.find?
        (fun tbl => pyLowerSeg tbl.name.data == pyLowerSeg tchars) with
    | none => .ok []
    | some tschema =>
      statsForSchema env.run true tschema (String.mk tchars)

/-- `pd.DataFrame(rows_data, columns=columns_data)` on positional rows,
then `df.astype(str).values.tolist()`; pandas raises `ValueError` when a
row's width differs from the column count. -/
def pdFrameRows (cols : List String) (rows : List (List PyVal)) :
    Except String (List (List String)) :=
  if rows.all (fun r => r.length == cols.length) then
    .ok (rows.map (fun r => r.map pyStr))
  else .error "ValueError: columns passed, passed data had a different number of columns"

/-- `pd.DataFrame(rows_data, columns=columns_data)` on `RealDictCursor`
dict rows, then `df.astype(str).values.tolist()`: each output row has one
entry per requested column, `"nan"` for a missing key. -/
def pdFrameDicts (cols : List String) (rows : List Row) : List (List String) :=
  rows.map (fun r => cols.map (fun c =>
    match rowGet r c with
    | some v => pyStr v
    | none => "nan"))

/-- The body of OracleConnector.execute_query's `try` block. -/
def oracleRunQuery (env : OracleConn) (query : String)
    (metadata : List TableSchema) (result_limit : Int) :
    Except String ResultSet :=
  match env.run query with
  | .error e => .error e
  | .ok (columns_data, allRows) =>
    match oracleStatistics env query metadata columns_data with
    | .error e => .error e
    | .ok statistics =>
      match pdFrameRows columns_data
          (if result_limit > 0 then allRows.take result_limit.toNat
           else allRows) with
      | .error e => .error e
      | .ok rows => .ok ⟨columns_data, rows, statistics⟩

/-- OracleConnector.execute_query: the `except` clauses turn any raised
error into `(None, str(e))`. -/
def oracleExecuteQuery (env : OracleConn) (query : String)
    (metadata : List TableSchema) (result_limit : Int) :
    Option ResultSet × Option String :=
  match oracleRunQuery env query metadata result_limit with
  | .ok rs => (some rs, none)
  | .error e => (none, some e)

/-- The body of PostgresConnector.execute_query's `try` block. -/
def postgresRunQuery (env : PostgresConn) (query : String)
    (metadata : List TableSchema) (result_limit : Int) :
    Except String ResultSet :=
  match env.runDict query with
  | .error e => .error e
  | .ok (columns_data, allRows) =>
    match postgresStatistics env query metadata columns_data with
    | .error e => .error e
    | .ok statistics =>
      .ok ⟨columns_data,
        pdFrameDicts columns_data
          (if result_limit > 0 then allRows.take result_limit.toNat
           else allRows),
        statistics⟩

/-- PostgresConnector.execute_query with its `except` clauses. -/
def postgresExecuteQuery (env : PostgresConn) (query : String)
    (metadata : List TableSchema) (result_limit : Int) :
    Option ResultSet × Option String :=
  match postgresRunQuery env query metadata result_limit with
  | .ok rs => (some rs, none)
  | .error e => (none, some e)

/-- A schema whose stored column name `salary` differs in case from the
driver-reported column `SALARY`. -/
def c6mismatchMd : List TableSchema := [⟨"T", [⟨"salary", ["MIN"]⟩]⟩]

/-- A driver for which `SELECT * FROM T` reports column `SALARY` and the
statistics query (built from the schema's lower-case `salary`)
succeeds — as Oracle does for unquoted identifiers. -/
def c6mismatchEnv : OracleConn := ⟨fun q =>
  if q = "SELECT * FROM T" then .ok (["SALARY"], [[.vnum 100]])
  else if q = "SELECT MIN(salary), MAX(salary) FROM T" then
    .ok ([], [[.vnum 1, .vnum 2]])
  else .error "unexpected"⟩

def c6goodMd : List TableSchema :=
  [⟨"T", [⟨"SALARY", ["MIN", "AVG", "SUM"]⟩, ⟨"NAME", []⟩]⟩]

def c6goodO : OracleConn := ⟨fun q =>
  if q = "SELECT * FROM T" then
    .ok (["SALARY", "NAME"], [[.vnum 100, .vstr "a"], [.vnum 200, .vstr "b"]])
  else if q = "SELECT MIN(SALARY), MAX(SALARY) FROM T" then
    .ok (["MIN", "MAX"], [[.vnum 100, .vnum 200]])
  else if q = "SELECT AVG(SALARY) FROM T" then .ok (["AVG"], [[.vnum 150]])
  else if q = "SELECT SUM(SALARY) FROM T" then .ok (["SUM"], [[.vnum 300]])
  else .error "ORA-00942: table or view does not exist"⟩

def c6goodP : PostgresConn := ⟨fun q =>
  if q = "SELECT * FROM T" then
    .ok (["SALARY", "NAME"], [[("SALARY", .vnum 100), ("NAME", .vstr "a")]])
  else .error "relation does not exist", c6goodO.run⟩

def c6rsO : ResultSet := ⟨["SALARY", "NAME"], [["100", "a"], ["200", "b"]],
  [("SALARY", [("min", .vnum 100), ("max", .vnum 200), ("avg", .vnum 150),
    ("sum", .vnum 300)])]⟩

def c6rsP : ResultSet := ⟨["SALARY", "NAME"], [["100", "a"]],
  [("SALARY", [("min", .vnum 100), ("max", .vnum 200), ("avg", .vnum 150),
    ("sum", .vnum 300)])]⟩

theorem pyReplaceChar_map (a b : Char) (s : List Char) :
    pyReplaceChar a [b] s = s.map (fun c => if c = a then b else c) := by
  induction s with
  | nil => rfl
  | cons c cs ih =>
    by_cases h : c = a <;> simp [pyReplaceChar, h, ih]

theorem pyReplaceChar_del (a : Char) (s : List Char) :
    pyReplaceChar a [] s = s.filter (fun c => c ≠ a) := by
  induction s with
  | nil => rfl
  | cons c cs ih =>
    by_cases h : c = a <;> simp [pyReplaceChar, h, ih, List.filter]

/-- C8 (amended): the normalisation replaces every newline by a space,
removes every semicolon (not only trailing ones), and strips surrounding
whitespace. -/
theorem normalizeSql_spec (s : List Char) :
    normalizeSql s =
      pyStrip ((s.map fun c => if c = '\n' then ' ' else c).filter
        (fun c => c ≠ ';')) := by
  rw [normalizeSql, pyReplaceChar_map, pyReplaceChar_del]

/-- C8 (counterexample): on `"SELECT 1; SELECT 2"` — which has no newline
and no trailing terminator, so the claim as stated would leave it
unchanged — the code removes the interior semicolon. -/
theorem normalizeSql_counterexample :
    normalizeSql ("SELECT 1; SELECT 2").data = ("SELECT 1 SELECT 2").data ∧
      normalizeSql ("SELECT 1; SELECT 2").data ≠ ("SELECT 1; SELECT 2").data := by
  constructor
  · rfl
  · decide

/-- C9: on an empty result set `generate_statistics` is total (it cannot
raise) and returns zero total rows, zero-valued totals and the
explanatory note, for every column list and every extracted metadata. -/
theorem generateStatistics_empty (columns : List String) (qfd : QueryFilterData) :
    generateStatistics [] columns qfd =
      { total_rows := 0, total_categories := some 0, grand_total := some 0,
        highest_category := none, lowest_category := none,
        average_per_category := none,
        addl_note := some "No data returned from query",
        addl_numeric_columns := [], addl_category_columns := [],
        addl_sample_row := none } := rfl

theorem insertDesc_perm {α : Type} (key : α → ℚ) (x : α) (l : List α) :
    List.Perm (insertDesc key x l) (x :: l) := by
  induction l with
  | nil => exact List.Perm.refl _
  | cons y ys ih =>
    by_cases h : key y ≤ key x
    · simp [insertDesc, h]
    · simp only [insertDesc, if_neg h]
      exact (ih.cons y).trans (List.Perm.swap x y ys)

theorem sortDesc_perm {α : Type} (key : α → ℚ) (l : List α) :
    List.Perm (sortDesc key l) l := by
  induction l with
  | nil => exact List.Perm.refl _
  | cons x xs ih =>
    exact (insertDesc_perm key x (sortDesc key xs)).trans (ih.cons x)

theorem insertDesc_pairwise {α : Type} (key : α → ℚ) (x : α) (l : List α)
    (h : l.Pairwise (fun a b => key b ≤ key a)) :
    (insertDesc key x l).Pairwise (fun a b => key b ≤ key a) := by
  induction l with
  | nil => simp [insertDesc]
  | cons y ys ih =>
    rcases List.pairwise_cons.mp h with ⟨hy, hys⟩
    by_cases hxy : key y ≤ key x
    · simp only [insertDesc, if_pos hxy]
      refine List.pairwise_cons.mpr ⟨?_, h⟩
      intro z hz
      rcases List.mem_cons.mp hz with rfl | hz
      · exact hxy
      · exact le_trans (hy z hz) hxy
    · simp only [insertDesc, if_neg hxy]
      refine List.pairwise_cons.mpr ⟨?_, ih hys⟩
      intro z hz
      have hz' := (insertDesc_perm key x ys).mem_iff.mp hz
      rcases List.mem_cons.mp hz' with rfl | hz'
      · exact le_of_not_le hxy
      · exact hy z hz'

theorem sortDesc_pairwise {α : Type} (key : α → ℚ) (l : List α) :
    (sortDesc key l).Pairwise (fun a b => key b ≤ key a) := by
  induction l with
  | nil => simp [sortDesc]
  | cons x xs ih => exact insertDesc_pairwise key x _ ih

theorem pairwise_desc_head_le {α : Type} (key : α → ℚ) (x : α) (l : List α)
    (h : (x :: l).Pairwise (fun a b => key b ≤ key a)) :
    ∀ y ∈ x :: l, key y ≤ key x := by
  intro y hy
  rcases List.mem_cons.mp hy with rfl | hy
  · exact le_refl _
  · exact (List.pairwise_cons.mp h).1 y hy

theorem pairwise_desc_last_le {α : Type} (key : α → ℚ) :
    ∀ (l : List α) (hne : l ≠ []),
      l.Pairwise (fun a b => key b ≤ key a) →
      ∀ y ∈ l, key (l.getLast hne) ≤ key y := by
  intro l
  induction l with
  | nil => intro hne; exact absurd rfl hne
  | cons x xs ih =>
    intro hne h y hy
    rcases List.mem_cons.mp hy with rfl | hy
    · cases xs with
      | nil => simp [List.getLast]
      | cons z zs =>
        have hmem : (z :: zs).getLast (List.cons_ne_nil z zs) ∈ z :: zs :=
          List.getLast_mem _
        have hrw : (y :: z :: zs).getLast hne
            = (z :: zs).getLast (List.cons_ne_nil z zs) :=
          List.getLast_cons (List.cons_ne_nil z zs)
        rw [hrw]
        exact (List.pairwise_cons.mp h).1 _ hmem
    · cases xs with
      | nil => exact absurd hy (List.not_mem_nil y)
      | cons z zs =>
        have hrw : (x :: z :: zs).getLast hne
            = (z :: zs).getLast (List.cons_ne_nil z zs) :=
          List.getLast_cons (List.cons_ne_nil z zs)
        rw [hrw]
        exact ih (List.cons_ne_nil z zs) (List.pairwise_cons.mp h).2 y hy

theorem forall2_filterMap {α β : Type} (f : α → Option β) (l : List α)
    (h : ∀ x ∈ l, (f x).isSome) :
    List.Forall₂ (fun x y => f x = some y) l (l.filterMap f) := by
  induction l with
  | nil => simp
  | cons x xs ih =>
    have hx := h x (List.mem_cons_self x xs)
    rcases Option.isSome_iff_exists.mp hx with ⟨y, hy⟩
    rw [List.filterMap_cons_some hy]
    exact List.Forall₂.cons hy (ih fun z hz => h z (List.mem_cons_of_mem x hz))

theorem numAt_eq_some (vcol : String) (r : Row) (q : ℚ) :
    numAt vcol r = some q ↔ rowGet r vcol = some (PyVal.vnum q) := by
  unfold numAt
  cases h : rowGet r vcol with
  | none => simp
  | some v => cases v <;> simp

theorem statKey_of_rowGet (vcol : String) (r : Row) (q : ℚ)
    (h : rowGet r vcol = some (PyVal.vnum q)) : statKey vcol r = q := by
  unfold statKey
  rw [h]

theorem catStats_eq (db_result : List Row) (columns : List String)
    (qfd : QueryFilterData) (vcol ccol : String) (ntl ctl : List String)
    (hd : Row) (tl : List Row)
    (hgb : qfdGroupByTruthy qfd = true)
    (hcc : categoryCols db_result columns = ccol :: ctl)
    (hnc : numericCols db_result columns = vcol :: ntl)
    (hS : sortDesc (statKey vcol) db_result = hd :: tl) :
    catStats db_result columns qfd =
      ⟨some db_result.length, some (grandTotalVal vcol db_result),
       some (pyStr ((rowGet hd ccol).getD (.vstr "Unknown")),
             (rowGet hd vcol).getD (.vnum 0)),
       some (pyStr ((rowGet ((hd :: tl).getLast (List.cons_ne_nil hd tl)) ccol).getD
               (.vstr "Unknown")),
             (rowGet ((hd :: tl).getLast (List.cons_ne_nil hd tl)) vcol).getD (.vnum 0)),
       if 0 < db_result.length then
         some (grandTotalVal vcol db_result / db_result.length)
       else none⟩ := by
  simp [catStats, hgb, hcc, hnc, hS]

/-- C4 (amended): for a non-empty result set with a declared group-by, at
least one category column and at least one numeric column, where the
first numeric column holds a numeric value in every row (the claim as
frozen fails when some rows hold non-numeric values in that column, see
the counterexample), `generate_statistics` reports: category count = row
count, grand total = the sum of the first numeric column over all rows,
highest/lowest category = the category/value pair of a row attaining the
maximal/minimal value of that column, and average-per-category = grand
total divided by the (positive, hence division-safe) category count. -/
theorem generateStatistics_groupBy
    (db_result : List Row) (columns : List String) (qfd : QueryFilterData)
    (vcol ccol : String) (ntl ctl : List String)
    (hne : db_result ≠ [])
    (hgb : qfdGroupByTruthy qfd = true)
    (hcc : categoryCols db_result columns = ccol :: ctl)
    (hnc : numericCols db_result columns = vcol :: ntl)
    (hunif : ∀ r ∈ db_result, ∃ q, rowGet r vcol = some (PyVal.vnum q)) :
    ∃ qs, List.Forall₂ (fun r q => rowGet r vcol = some (PyVal.vnum q)) db_result qs ∧
      0 < db_result.length ∧
      (generateStatistics db_result columns qfd).total_categories
        = some db_result.length ∧
      (generateStatistics db_result columns qfd).grand_total = some qs.sum ∧
      (generateStatistics db_result columns qfd).average_per_category
        = some (qs.sum / (db_result.length : ℚ)) ∧
      (∃ r ∈ db_result, ∃ q, rowGet r vcol = some (PyVal.vnum q) ∧
        (generateStatistics db_result columns qfd).highest_category
          = some (pyStr ((rowGet r ccol).getD (PyVal.vstr "Unknown")), PyVal.vnum q) ∧
        ∀ r' ∈ db_result, ∀ q', rowGet r' vcol = some (PyVal.vnum q') → q' ≤ q) ∧
      (∃ r ∈ db_result, ∃ q, rowGet r vcol = some (PyVal.vnum q) ∧
        (generateStatistics db_result columns qfd).lowest_category
          = some (pyStr ((rowGet r ccol).getD (PyVal.vstr "Unknown")), PyVal.vnum q) ∧
        ∀ r' ∈ db_result, ∀ q', rowGet r' vcol = some (PyVal.vnum q') → q ≤ q') := by
  obtain ⟨r0, rest, rfl⟩ : ∃ r0 rest, db_result = r0 :: rest := by
    cases db_result with
    | nil => exact absurd rfl hne
    | cons a b => exact ⟨a, b, rfl⟩
  have hperm := sortDesc_perm (statKey vcol) (r0 :: rest)
  have hlen := hperm.length_eq
  obtain ⟨hd, tl, hS⟩ : ∃ hd tl, sortDesc (statKey vcol) (r0 :: rest) = hd :: tl := by
    cases hSd : sortDesc (statKey vcol) (r0 :: rest) with
    | nil => rw [hSd] at hlen; simp at hlen
    | cons a b => exact ⟨a, b, rfl⟩
  have hcs := catStats_eq (r0 :: rest) columns qfd vcol ccol ntl ctl hd tl hgb hcc hnc hS
  have hpos : 0 < (r0 :: rest).length := Nat.succ_pos _
  have hsomeAll : ∀ r ∈ (r0 :: rest), (numAt vcol r).isSome := by
    intro r hr
    obtain ⟨q, hq⟩ := hunif r hr
    simp [numAt, hq]
  have hf2 : List.Forall₂ (fun r q => rowGet r vcol = some (PyVal.vnum q))
      (r0 :: rest) ((r0 :: rest).filterMap (numAt vcol)) := by
    refine (forall2_filterMap (numAt vcol) (r0 :: rest) hsomeAll).imp ?_
    intro r q hq
    exact (numAt_eq_some vcol r q).mp hq
  have hpw := sortDesc_pairwise (statKey vcol) (r0 :: rest)
  rw [hS] at hpw
  have hhd_mem : hd ∈ r0 :: rest := by
    refine hperm.subset ?_
    rw [hS]
    exact List.mem_cons_self hd tl
  set lst := (hd :: tl).getLast (List.cons_ne_nil hd tl) with hlst
  have hlst_mem : lst ∈ r0 :: rest := by
    refine hperm.subset ?_
    rw [hS]
    exact List.getLast_mem (List.cons_ne_nil hd tl)
  obtain ⟨qh, hqh⟩ := hunif hd hhd_mem
  obtain ⟨ql, hql⟩ := hunif lst hlst_mem
  refine ⟨(r0 :: rest).filterMap (numAt vcol), hf2, hpos, ?_, ?_, ?_, ?_, ?_⟩
  · simp [generateStatistics, hcs]
  · simp [generateStatistics, hcs, grandTotalVal]
  · simp [generateStatistics, hcs, grandTotalVal, hpos]
  · refine ⟨hd, hhd_mem, qh, hqh, ?_, ?_⟩
    · simp [generateStatistics, hcs, hqh]
    · intro r' hr' q' hq'
      have hr'S : r' ∈ hd :: tl := by
        rw [← hS]
        exact hperm.symm.subset hr'
      have := pairwise_desc_head_le (statKey vcol) hd tl hpw r' hr'S
      rw [statKey_of_rowGet vcol r' q' hq', statKey_of_rowGet vcol hd qh hqh] at this
      exact this
  · refine ⟨lst, hlst_mem, ql, hql, ?_, ?_⟩
    · simp [generateStatistics, hcs, hql]
    · intro r' hr' q' hq'
      have hr'S : r' ∈ hd :: tl := by
        rw [← hS]
        exact hperm.symm.subset hr'
      have := pairwise_desc_last_le (statKey vcol) (hd :: tl)
        (List.cons_ne_nil hd tl) hpw r' hr'S
      rw [statKey_of_rowGet vcol r' q' hq', statKey_of_rowGet vcol lst ql hql] at this
      exact this

theorem generateStatistics_grand_total_eq (db_result : List Row)
    (columns : List String) (qfd : QueryFilterData) (hne : db_result ≠ []) :
    (generateStatistics db_result columns qfd).grand_total
      = (catStats db_result columns qfd).grand_total := by
  cases db_result with
  | nil => exact absurd rfl hne
  | cons r0 rest => rfl

theorem generateStatistics_average_eq (db_result : List Row)
    (columns : List String) (qfd : QueryFilterData) (hne : db_result ≠ []) :
    (generateStatistics db_result columns qfd).average_per_category
      = (catStats db_result columns qfd).average_per_category := by
  cases db_result with
  | nil => exact absurd rfl hne
  | cons r0 rest => rfl

/-- C4 (counterexample): a result set with a group-by, one category column
`CAT` and one numeric column `V` (classified numeric from the first row),
where the second row holds the non-numeric value `"x"` in `V`.  The only
row with a numeric `V` is the first one, `("a", -5)`, so the claim as
frozen requires `highest_category = {name: "a", value: -5}`; the code
instead sorts with key `0` for the non-numeric row, `0 > -5`, and reports
`{name: "b", value: "x"}`. -/
theorem generateStatistics_highest_counterexample :
    (generateStatistics
        [[("CAT", PyVal.vstr "a"), ("V", PyVal.vnum (-5))],
         [("CAT", PyVal.vstr "b"), ("V", PyVal.vstr "x")]]
        ["CAT", "V"]
        ⟨none, some ["CAT"], none, none⟩).highest_category
      = some ("b", PyVal.vstr "x") ∧
    (some ("b", PyVal.vstr "x") : Option (String × PyVal))
      ≠ some ("a", PyVal.vnum (-5)) := by
  constructor
  · rfl
  · decide

/-- C4 (witness): the amended theorem applied to the scenario-D input;
`grand_total = 500` and `average_per_category = 100` as the claim's
end-to-end scenario requires. -/
theorem generateStatistics_groupBy_witness :
    (c4Rows5 ≠ [] ∧ qfdGroupByTruthy c4Qfd = true ∧
      categoryCols c4Rows5 ["CAT", "V"] = ["CAT"] ∧
      numericCols c4Rows5 ["CAT", "V"] = ["V"]) ∧
    (∃ qs, List.Forall₂ (fun r q => rowGet r "V" = some (PyVal.vnum q)) c4Rows5 qs ∧
      0 < c4Rows5.length ∧
      (generateStatistics c4Rows5 ["CAT", "V"] c4Qfd).total_categories
        = some c4Rows5.length ∧
      (generateStatistics c4Rows5 ["CAT", "V"] c4Qfd).grand_total = some qs.sum ∧
      (generateStatistics c4Rows5 ["CAT", "V"] c4Qfd).average_per_category
        = some (qs.sum / (c4Rows5.length : ℚ)) ∧
      (∃ r ∈ c4Rows5, ∃ q, rowGet r "V" = some (PyVal.vnum q) ∧
        (generateStatistics c4Rows5 ["CAT", "V"] c4Qfd).highest_category
          = some (pyStr ((rowGet r "CAT").getD (PyVal.vstr "Unknown")), PyVal.vnum q) ∧
        ∀ r' ∈ c4Rows5, ∀ q', rowGet r' "V" = some (PyVal.vnum q') → q' ≤ q) ∧
      (∃ r ∈ c4Rows5, ∃ q, rowGet r "V" = some (PyVal.vnum q) ∧
        (generateStatistics c4Rows5 ["CAT", "V"] c4Qfd).lowest_category
          = some (pyStr ((rowGet r "CAT").getD (PyVal.vstr "Unknown")), PyVal.vnum q) ∧
        ∀ r' ∈ c4Rows5, ∀ q', rowGet r' "V" = some (PyVal.vnum q') → q ≤ q')) ∧
    (generateStatistics c4Rows5 ["CAT", "V"] c4Qfd).grand_total = some 500 ∧
    (generateStatistics c4Rows5 ["CAT", "V"] c4Qfd).average_per_category = some 100 := by
  have hunif5 : ∀ r ∈ c4Rows5, ∃ q, rowGet r "V" = some (PyVal.vnum q) := by
    intro r hr
    simp only [c4Rows5, List.mem_cons, List.not_mem_nil, or_false] at hr
    rcases hr with rfl | rfl | rfl | rfl | rfl
    · exact ⟨100, rfl⟩
    · exact ⟨100, rfl⟩
    · exact ⟨100, rfl⟩
    · exact ⟨100, rfl⟩
    · exact ⟨100, rfl⟩
  have hcv : ("CAT" : String) ≠ "V" := by decide
  have hS5 : sortDesc (statKey "V") c4Rows5 = c4Rows5 := by
    norm_num [sortDesc, insertDesc, statKey, rowGet, c4Rows5, hcv]
  have hcs5 := catStats_eq c4Rows5 ["CAT", "V"] c4Qfd "V" "CAT" [] []
    [("CAT", .vstr "a"), ("V", .vnum 100)]
    [[("CAT", .vstr "b"), ("V", .vnum 100)],
     [("CAT", .vstr "c"), ("V", .vnum 100)],
     [("CAT", .vstr "d"), ("V", .vnum 100)],
     [("CAT", .vstr "e"), ("V", .vnum 100)]]
    (by decide) (by decide) (by decide) hS5
  have hfm : c4Rows5.filterMap (numAt "V") = [100, 100, 100, 100, 100] := by
    simp [c4Rows5, numAt, rowGet]
  have hgt : grandTotalVal "V" c4Rows5 = 500 := by
    rw [grandTotalVal, hfm]; norm_num
  refine ⟨by decide,
    generateStatistics_groupBy c4Rows5 ["CAT", "V"] c4Qfd "V" "CAT" [] []
      (by decide) (by decide) (by decide) (by decide) hunif5, ?_, ?_⟩
  · rw [generateStatistics_grand_total_eq c4Rows5 ["CAT", "V"] c4Qfd (by decide), hcs5,
      hgt]
  · rw [generateStatistics_average_eq c4Rows5 ["CAT", "V"] c4Qfd (by decide), hcs5]
    simp only [if_pos (by decide : 0 < c4Rows5.length), hgt]
    norm_num [c4Rows5]

/-- C7: when generation fails and the question contains none of the
trigger keywords (average, sum, count in the deployment's Arabic), the
fallback builds no SQL for any schema and the pipeline raises an explicit
generation failure, so no SQL is returned or executed. -/
theorem fallback_no_trigger (question : String)
    (schema : List (String × List FallbackCol))
    (h1 : containsSeg question.data "متوسط".data = false)
    (h2 : containsSeg question.data "مجموع".data = false)
    (h3 : containsSeg question.data "عدد".data = false) :
    fallbackSql question schema = none ∧
      generateSqlFailurePath question schema
        = Except.error "HTTP 500: Failed to generate SQL from question" := by
  have hf : fallbackSql question schema = none := by
    cases schema with
    | nil => rfl
    | cons t rest =>
      obtain ⟨tn, cols⟩ := t
      simp [fallbackSql, h1, h2, h3]
  exact ⟨hf, by rw [generateSqlFailurePath, hf]⟩

/-- C7 (witness): the English question of end-to-end scenario A contains
no Arabic trigger keyword, so the fallback yields nothing and the
pipeline reports the generation failure. -/
theorem fallback_no_trigger_witness :
    containsSeg ("how many customers are there?").data ("متوسط").data = false ∧
    containsSeg ("how many customers are there?").data ("مجموع").data = false ∧
    containsSeg ("how many customers are there?").data ("عدد").data = false ∧
    fallbackSql "how many customers are there?"
      [("CUSTOMERS_59C96545", [⟨"ID", "identifier"⟩])] = none ∧
    generateSqlFailurePath "how many customers are there?"
      [("CUSTOMERS_59C96545", [⟨"ID", "identifier"⟩])]
      = Except.error "HTTP 500: Failed to generate SQL from question" := by
  have h := fallback_no_trigger "how many customers are there?"
    [("CUSTOMERS_59C96545", [⟨"ID", "identifier"⟩])]
    (by decide) (by decide) (by decide)
  exact ⟨by decide, by decide, by decide, h.1, h.2⟩

/-- C1 (code defect, evaluation): the second `SELECT` onwards is
discarded exactly as claimed, and the claim's own example
`"SELECT * FROM t SELECT * FROM t UNION"` does clean to
`"SELECT * FROM t"`; but on `"SELECT a UNION SELECT b"` the cleanup
returns `"SELECT a UNION"` — the dangling `UNION` survives, because the
regex `\s+(UNION\s*ALL?)\s*$` requires the letters `AL` after `UNION`
(the quantifier binds only the final `L`), contradicting both the claim
and the code's own comment `"SELECT ... UNION" -> "SELECT ..."`. -/
theorem cleanSqlQuery_eval :
    cleanSqlQuery ("SELECT a UNION SELECT b").data = ("SELECT a UNION").data ∧
    cleanSqlQuery ("SELECT * FROM t SELECT * FROM t UNION").data
      = ("SELECT * FROM t").data ∧
    cleanSqlQuery ("SELECT a UNION ALL SELECT b").data = ("SELECT a").data := by
  refine ⟨rfl, rfl, rfl⟩

/-! ## Character arithmetic facts (ASCII fragment used by the model) -/

theorem bool_eq_of_iff {a b : Bool} (h : a = true ↔ b = true) : a = b := by
  cases a <;> cases b <;> simp_all

theorem char_eq_iff_toNat (c d : Char) : c = d ↔ c.toNat = d.toNat := by
  constructor
  · intro h; rw [h]
  · intro h; exact Char.ext (UInt32.ext h)

theorem char_ofNat_toNat_small (k : Nat) (h : k < 55296) :
    (Char.ofNat k).toNat = k := by
  unfold Char.ofNat
  rw [dif_pos (Or.inl (by omega : k < 0xd800))]
  simp [Char.ofNatAux, Char.toNat, UInt32.toNat, BitVec.toNat_ofNatLt]

theorem toNat_toUpper (c : Char) :
    (c.toUpper).toNat =
      if 97 ≤ c.toNat ∧ c.toNat ≤ 122 then c.toNat - 32 else c.toNat := by
  unfold Char.toUpper
  by_cases h : c.toNat ≥ 97 ∧ c.toNat ≤ 122
  · rw [if_pos h, if_pos ⟨h.1, h.2⟩]
    exact char_ofNat_toNat_small _ (by omega)
  · rw [if_neg h, if_neg (by tauto)]

theorem toNat_toLower (c : Char) :
    (c.toLower).toNat =
      if 65 ≤ c.toNat ∧ c.toNat ≤ 90 then c.toNat + 32 else c.toNat := by
  unfold Char.toLower
  by_cases h : c.toNat ≥ 65 ∧ c.toNat ≤ 90
  · rw [if_pos h, if_pos ⟨h.1, h.2⟩]
    exact char_ofNat_toNat_small _ (by omega)
  · rw [if_neg h, if_neg (by tauto)]

theorem isAlphanum_iff (c : Char) :
    c.isAlphanum = true ↔
      (65 ≤ c.toNat ∧ c.toNat ≤ 90) ∨ (97 ≤ c.toNat ∧ c.toNat ≤ 122) ∨
        (48 ≤ c.toNat ∧ c.toNat ≤ 57) := by
  simp [Char.isAlphanum, Char.isAlpha, Char.isUpper, Char.isLower, Char.isDigit,
    Char.toNat, UInt32.le_def, BitVec.le_def, UInt32.toNat]
  tauto

theorem isAlpha_iff (c : Char) :
    c.isAlpha = true ↔
      (65 ≤ c.toNat ∧ c.toNat ≤ 90) ∨ (97 ≤ c.toNat ∧ c.toNat ≤ 122) := by
  simp [Char.isAlpha, Char.isUpper, Char.isLower,
    Char.toNat, UInt32.le_def, BitVec.le_def, UInt32.toNat]

theorem isLower_iff (c : Char) :
    c.isLower = true ↔ 97 ≤ c.toNat ∧ c.toNat ≤ 122 := by
  simp [Char.isLower, Char.toNat, UInt32.le_def, BitVec.le_def, UInt32.toNat]

theorem isDigit_iff (c : Char) :
    c.isDigit = true ↔ 48 ≤ c.toNat ∧ c.toNat ≤ 57 := by
  simp [Char.isDigit, Char.toNat, UInt32.le_def, BitVec.le_def, UInt32.toNat]

theorem isSpc_iff (c : Char) :
    isSpc c = true ↔
      c.toNat = 32 ∨ c.toNat = 9 ∨ c.toNat = 10 ∨ c.toNat = 13 ∨
        c.toNat = 11 ∨ c.toNat = 12 := by
  simp [isSpc, char_eq_iff_toNat]
  tauto

theorem isWordChar_iff (c : Char) :
    isWordChar c = true ↔
      (65 ≤ c.toNat ∧ c.toNat ≤ 90) ∨ (97 ≤ c.toNat ∧ c.toNat ≤ 122) ∨
        (48 ≤ c.toNat ∧ c.toNat ≤ 57) ∨ c.toNat = 95 ∨ 128 ≤ c.toNat := by
  simp [isWordChar, isAlphanum_iff, char_eq_iff_toNat]
  tauto

theorem isWordChar_toLower (c : Char) : isWordChar c.toLower = isWordChar c := by
  apply bool_eq_of_iff
  rw [isWordChar_iff, isWordChar_iff, toNat_toLower]
  by_cases hc : 65 ≤ c.toNat ∧ c.toNat ≤ 90
  · rw [if_pos hc]; omega
  · rw [if_neg hc]

theorem isWordChar_toUpper (c : Char) : isWordChar c.toUpper = isWordChar c := by
  apply bool_eq_of_iff
  rw [isWordChar_iff, isWordChar_iff, toNat_toUpper]
  by_cases hc : 97 ≤ c.toNat ∧ c.toNat ≤ 122
  · rw [if_pos hc]; omega
  · rw [if_neg hc]

theorem isSpc_toLower (c : Char) : isSpc c.toLower = isSpc c := by
  apply bool_eq_of_iff
  rw [isSpc_iff, isSpc_iff, toNat_toLower]
  by_cases hc : 65 ≤ c.toNat ∧ c.toNat ≤ 90
  · rw [if_pos hc]; omega
  · rw [if_neg hc]

theorem isSpc_isWordChar_false (c : Char) (h : isSpc c = true) :
    isWordChar c = false := by
  cases hw : isWordChar c
  · rfl
  · exfalso
    have h1 := (isSpc_iff c).mp h
    have h2 := (isWordChar_iff c).mp hw
    omega

theorem isLower_toUpper_false (c : Char) : (c.toUpper).isLower = false := by
  cases hw : (c.toUpper).isLower
  · rfl
  · exfalso
    have h1 := (isLower_iff c.toUpper).mp hw
    rw [toNat_toUpper] at h1
    by_cases hc : 97 ≤ c.toNat ∧ c.toNat ≤ 122
    · rw [if_pos hc] at h1; omega
    · rw [if_neg hc] at h1; omega

theorem isAlpha_toUpper (c : Char) : (c.toUpper).isAlpha = c.isAlpha := by
  apply bool_eq_of_iff
  rw [isAlpha_iff, isAlpha_iff, toNat_toUpper]
  by_cases hc : 97 ≤ c.toNat ∧ c.toNat ≤ 122
  · rw [if_pos hc]; omega
  · rw [if_neg hc]

theorem isUpperHexCh_isHexDigitCh (c : Char) (h : isUpperHexCh c = true) :
    isHexDigitCh c = true := by
  simp [isUpperHexCh] at h
  simp [isHexDigitCh]
  tauto

theorem isUpperHexCh_toUpper_of_lower (c : Char) (h : isLowerHexCh c = true) :
    isUpperHexCh c.toUpper = true := by
  simp [isLowerHexCh, isDigit_iff] at h
  simp [isUpperHexCh, isDigit_iff, toNat_toUpper]
  by_cases hc : 97 ≤ c.toNat ∧ c.toNat ≤ 122
  · rw [if_pos hc]; omega
  · rw [if_neg hc]; omega

theorem stripHexSuffix_append (pre h8 : List Char) (hlen : h8.length = 8)
    (hhex : h8.all isHexDigitCh = true) :
    stripHexSuffix (pre ++ '_' :: h8) = pre := by
  have hrev : (pre ++ '_' :: h8).reverse = h8.reverse ++ '_' :: pre.reverse := by
    simp [List.reverse_append]
  have hl8 : h8.reverse.length = 8 := by simp [hlen]
  have htake : (h8.reverse ++ '_' :: pre.reverse).take 8 = h8.reverse := by
    rw [← hl8]; exact List.take_left _ _
  have hdrop8 : (h8.reverse ++ '_' :: pre.reverse).drop 8 = '_' :: pre.reverse := by
    rw [← hl8]; exact List.drop_left _ _
  have hdrop9 : (h8.reverse ++ '_' :: pre.reverse).drop 9 = pre.reverse := by
    have h1 : List.drop 1 (List.drop 8 (h8.reverse ++ '_' :: pre.reverse))
        = pre.reverse := by rw [hdrop8]; rfl
    rw [List.drop_drop] at h1
    exact h1
  have hall : h8.reverse.all isHexDigitCh = true := by
    rw [List.all_reverse]; exact hhex
  simp only [stripHexSuffix, hrev, htake, hdrop8, hdrop9, hl8, hall]
  simp

theorem buildMapping_single (name : List Char) (hne : name ≠ [])
    (hs : stripHexSuffix name ≠ name) :
    buildMapping [name] = [(pyUpperSeg (stripHexSuffix name), name)] := by
  simp [buildMapping, hne, hs, insertOrUpdate]

theorem tableName_core (a : Char) (l u8 res : List Char)
    (hres : res = pyUpperSeg ((a :: l) ++ '_' :: u8))
    (hlen : u8.length = 8) (hhex : u8.all isLowerHexCh = true)
    (ha : a.isAlpha = true) :
    (∀ c ∈ res, c.isLower = false) ∧
    (∃ c0 rest, res = c0 :: rest ∧ c0.isAlpha = true) ∧
    (∃ pre h8, res = pre ++ '_' :: h8 ∧ h8.length = 8 ∧
      h8.all isUpperHexCh = true) ∧
    stripHexSuffix res ≠ res ∧
    buildMapping [res] = [(pyUpperSeg (stripHexSuffix res), res)] := by
  have hu : ('_' : Char).toUpper = '_' := by decide
  have hsplit : res = (a.toUpper :: pyUpperSeg l) ++ '_' :: pyUpperSeg u8 := by
    rw [hres]; simp [pyUpperSeg, hu]
  have hh8len : (pyUpperSeg u8).length = 8 := by simp [pyUpperSeg, hlen]
  have hh8hex : (pyUpperSeg u8).all isUpperHexCh = true := by
    refine List.all_eq_true.mpr ?_
    intro c hc
    obtain ⟨d, hd, rfl⟩ := List.mem_map.mp hc
    exact isUpperHexCh_toUpper_of_lower d (List.all_eq_true.mp hhex d hd)
  have hh8dig : (pyUpperSeg u8).all isHexDigitCh = true := by
    refine List.all_eq_true.mpr ?_
    intro c hc
    exact isUpperHexCh_isHexDigitCh c (List.all_eq_true.mp hh8hex c hc)
  have hstrip : stripHexSuffix res = a.toUpper :: pyUpperSeg l := by
    rw [hsplit]
    exact stripHexSuffix_append _ _ hh8len hh8dig
  have hsne : stripHexSuffix res ≠ res := by
    rw [hstrip, hsplit]
    intro heq
    have := congrArg List.length heq
    simp at this
  have hne : res ≠ [] := by
    rw [hsplit]
    simp
  refine ⟨?_, ?_, ?_, hsne, ?_⟩
  · intro c hc
    rw [hres] at hc
    obtain ⟨d, _, rfl⟩ := List.mem_map.mp hc
    exact isLower_toUpper_false d
  · refine ⟨a.toUpper, pyUpperSeg l ++ '_' :: pyUpperSeg u8, ?_, ?_⟩
    · rw [hsplit]; rfl
    · rw [isAlpha_toUpper]; exact ha
  · exact ⟨a.toUpper :: pyUpperSeg l, pyUpperSeg u8, hsplit, hh8len, hh8hex⟩
  · exact buildMapping_single res hne hsne

/-- C10: for every filename whose stem is non-empty and every fresh UUID4
string (whose first eight characters are lower-case hexadecimal digits),
the generated physical table name contains no lower-case character,
starts with a letter, and ends in an underscore followed by exactly
eight upper-case hexadecimal characters; consequently the hallucination
corrector's suffix stripping changes it, so it always yields exactly one
base-to-physical mapping entry. -/
theorem generateTableName_spec (filename uuidStr res : List Char)
    (huuid8 : (uuidStr.take 8).length = 8)
    (hhex : (uuidStr.take 8).all isLowerHexCh = true)
    (hres : generateTableName filename uuidStr = some res) :
    (∀ c ∈ res, c.isLower = false) ∧
    (∃ c0 rest, res = c0 :: rest ∧ c0.isAlpha = true) ∧
    (∃ pre h8, res = pre ++ '_' :: h8 ∧ h8.length = 8 ∧
      h8.all isUpperHexCh = true) ∧
    stripHexSuffix res ≠ res ∧
    buildMapping [res] = [(pyUpperSeg (stripHexSuffix res), res)] := by
  simp only [generateTableName] at hres
  cases htn : (pyStem filename).map (fun c => if c.isAlphanum then c else '_') with
  | nil => rw [htn] at hres; exact absurd hres (by simp)
  | cons t0 ttl =>
    rw [htn] at hres
    simp only [Option.some.injEq] at hres
    by_cases halpha : t0.isAlpha = true
    · rw [if_pos halpha] at hres
      exact tableName_core t0 ttl (uuidStr.take 8) res hres.symm huuid8 hhex halpha
    · rw [if_neg halpha] at hres
      exact tableName_core 't' ('_' :: t0 :: ttl) (uuidStr.take 8) res hres.symm
        huuid8 hhex (by decide)

/-- C10 (witness): uploading `sales data.xlsx` with UUID
`59c96545-e36d-4a12-8ab2-0123456789ab` produces
`SALES_DATA_59C96545`, which satisfies all the stated properties. -/
theorem generateTableName_spec_witness :
    (("59c96545-e36d-4a12-8ab2-0123456789ab").data.take 8).length = 8 ∧
    (("59c96545-e36d-4a12-8ab2-0123456789ab").data.take 8).all isLowerHexCh = true ∧
    generateTableName ("sales data.xlsx").data
      ("59c96545-e36d-4a12-8ab2-0123456789ab").data
      = some ("SALES_DATA_59C96545").data ∧
    ((∀ c ∈ ("SALES_DATA_59C96545").data, c.isLower = false) ∧
     (∃ c0 rest, ("SALES_DATA_59C96545").data = c0 :: rest ∧ c0.isAlpha = true) ∧
     (∃ pre h8, ("SALES_DATA_59C96545").data = pre ++ '_' :: h8 ∧ h8.length = 8 ∧
       h8.all isUpperHexCh = true) ∧
     stripHexSuffix ("SALES_DATA_59C96545").data ≠ ("SALES_DATA_59C96545").data ∧
     buildMapping [("SALES_DATA_59C96545").data]
       = [(pyUpperSeg (stripHexSuffix ("SALES_DATA_59C96545").data),
           ("SALES_DATA_59C96545").data)]) :=
  ⟨by decide, by decide, by decide,
   generateTableName_spec ("sales data.xlsx").data
     ("59c96545-e36d-4a12-8ab2-0123456789ab").data ("SALES_DATA_59C96545").data
     (by decide) (by decide) (by decide)⟩

theorem ciEqSeg_length : ∀ t p, ciEqSeg t p = true → t.length = p.length := by
  intro t
  induction t with
  | nil => intro p h; cases p with
    | nil => rfl
    | cons b bs => simp [ciEqSeg] at h
  | cons a as ih =>
    intro p h
    cases p with
    | nil => simp [ciEqSeg] at h
    | cons b bs =>
      simp only [ciEqSeg, Bool.and_eq_true] at h
      simp [ih bs h.2]

theorem ciEqSeg_symm : ∀ t p, ciEqSeg t p = true → ciEqSeg p t = true := by
  intro t
  induction t with
  | nil => intro p h; cases p with
    | nil => exact rfl
    | cons b bs => simp [ciEqSeg] at h
  | cons a as ih =>
    intro p h
    cases p with
    | nil => simp [ciEqSeg] at h
    | cons b bs =>
      simp only [ciEqSeg, Bool.and_eq_true, decide_eq_true_eq] at h ⊢
      exact ⟨h.1.symm, ih bs h.2⟩

theorem ciStripPre_of_ciEqSeg : ∀ t p r, ciEqSeg t p = true →
    ciStripPre p (t ++ r) = some r := by
  intro t
  induction t with
  | nil => intro p r h; cases p with
    | nil => rfl
    | cons b bs => simp [ciEqSeg] at h
  | cons a as ih =>
    intro p r h
    cases p with
    | nil => simp [ciEqSeg] at h
    | cons b bs =>
      simp only [ciEqSeg, Bool.and_eq_true, decide_eq_true_eq] at h
      simp only [List.cons_append, ciStripPre, if_pos h.1]
      exact ih bs r h.2

theorem ciStripPre_some : ∀ p s r, ciStripPre p s = some r →
    ∃ t, s = t ++ r ∧ ciEqSeg t p = true := by
  intro p
  induction p with
  | nil => intro s r h
           refine ⟨[], ?_, rfl⟩
           simpa [ciStripPre] using h
  | cons b bs ih =>
    intro s r h
    cases s with
    | nil => simp [ciStripPre] at h
    | cons c cs =>
      simp only [ciStripPre] at h
      by_cases hc : c.toLower = b.toLower
      · rw [if_pos hc] at h
        obtain ⟨t, hts, hte⟩ := ih cs r h
        exact ⟨c :: t, by simp [hts], by simp [ciEqSeg, hc, hte]⟩
      · rw [if_neg hc] at h
        exact absurd h (by simp)

theorem word_of_toLower_eq (a b : Char) (h : a.toLower = b.toLower) :
    isWordChar a = isWordChar b := by
  rw [← isWordChar_toLower a, ← isWordChar_toLower b, h]

theorem spc_of_toLower_eq (a b : Char) (h : a.toLower = b.toLower) :
    isSpc a = isSpc b := by
  rw [← isSpc_toLower a, ← isSpc_toLower b, h]

theorem word_of_alpha (c : Char) (h : c.isAlpha = true) : isWordChar c = true := by
  have h1 := (isAlpha_iff c).mp h
  rw [isWordChar_iff]
  omega

theorem all_word_of_alpha (p : List Char) (h : p.all Char.isAlpha = true) :
    p.all isWordChar = true := by
  refine List.all_eq_true.mpr fun c hc => word_of_alpha c ?_
  exact List.all_eq_true.mp h c hc

theorem all_word_of_ciEqSeg : ∀ t p, ciEqSeg t p = true →
    p.all isWordChar = true → t.all isWordChar = true := by
  intro t
  induction t with
  | nil => intro p _ _; rfl
  | cons a as ih =>
    intro p h hw
    cases p with
    | nil => simp [ciEqSeg] at h
    | cons b bs =>
      simp only [ciEqSeg, Bool.and_eq_true, decide_eq_true_eq] at h
      simp only [List.all_cons, Bool.and_eq_true] at hw ⊢
      exact ⟨by rw [word_of_toLower_eq a b h.1]; exact hw.1, ih bs h.2 hw.2⟩

theorem all_takeWhile (p : Char → Bool) : ∀ l : List Char,
    (l.takeWhile p).all p = true := by
  intro l
  induction l with
  | nil => rfl
  | cons c cs ih =>
    by_cases hc : p c
    · simp [List.takeWhile, hc, ih]
    · simp [List.takeWhile, hc]

theorem takeWhile_append_eq (p : Char → Bool) : ∀ x y : List Char,
    x.all p = true → (∀ d, y.head? = some d → p d = false) →
    (x ++ y).takeWhile p = x ∧ (x ++ y).dropWhile p = y := by
  intro x
  induction x with
  | nil =>
    intro y _ hy
    cases y with
    | nil => exact ⟨rfl, rfl⟩
    | cons d ds =>
      have := hy d rfl
      constructor
      · simp [List.takeWhile, this]
      · simp [List.dropWhile, this]
  | cons c cs ih =>
    intro y hx hy
    simp only [List.all_cons, Bool.and_eq_true] at hx
    have := ih y hx.2 hy
    constructor
    · simp [List.takeWhile, hx.1, this.1]
    · simp [List.dropWhile, hx.1, this.2]

theorem simSeg_refl : ∀ x, simSeg x x = true := by
  intro x
  induction x with
  | nil => rfl
  | cons a as ih => simp [simSeg, ih]

theorem simSeg_length : ∀ x y, simSeg x y = true → x.length = y.length := by
  intro x
  induction x with
  | nil => intro y h; cases y with
    | nil => rfl
    | cons b bs => simp [simSeg] at h
  | cons a as ih =>
    intro y h
    cases y with
    | nil => simp [simSeg] at h
    | cons b bs =>
      simp only [simSeg, Bool.and_eq_true] at h
      simp [ih bs h.2]

theorem simSeg_append : ∀ x₁ y₁ x₂ y₂, simSeg x₁ y₁ = true → simSeg x₂ y₂ = true →
    simSeg (x₁ ++ x₂) (y₁ ++ y₂) = true := by
  intro x₁
  induction x₁ with
  | nil => intro y₁ x₂ y₂ h1 h2; cases y₁ with
    | nil => exact h2
    | cons b bs => simp [simSeg] at h1
  | cons a as ih =>
    intro y₁ x₂ y₂ h1 h2
    cases y₁ with
    | nil => simp [simSeg] at h1
    | cons b bs =>
      simp only [simSeg, Bool.and_eq_true] at h1
      simp only [List.cons_append, simSeg, Bool.and_eq_true]
      exact ⟨h1.1, ih bs x₂ y₂ h1.2 h2⟩

theorem simSeg_of_ciEqSeg : ∀ x y, ciEqSeg x y = true → simSeg x y = true := by
  intro x
  induction x with
  | nil => intro y h; cases y with
    | nil => rfl
    | cons b bs => simp [ciEqSeg] at h
  | cons a as ih =>
    intro y h
    cases y with
    | nil => simp [ciEqSeg] at h
    | cons b bs =>
      simp only [ciEqSeg, Bool.and_eq_true] at h
      simp only [simSeg, Bool.and_eq_true, Bool.or_eq_true]
      exact ⟨Or.inl h.1, ih bs h.2⟩

theorem simSeg_split : ∀ x₁ x₂ y, simSeg (x₁ ++ x₂) y = true →
    ∃ y₁ y₂, y = y₁ ++ y₂ ∧ simSeg x₁ y₁ = true ∧ simSeg x₂ y₂ = true := by
  intro x₁
  induction x₁ with
  | nil =>
    intro x₂ y h
    exact ⟨[], y, rfl, rfl, h⟩
  | cons a as ih =>
    intro x₂ y h
    cases y with
    | nil =>
      simp only [List.cons_append, simSeg] at h
      exact absurd h (by simp)
    | cons b bs =>
      simp only [List.cons_append, simSeg, Bool.and_eq_true] at h
      obtain ⟨y₁, y₂, hy, h1, h2⟩ := ih x₂ bs h.2
      exact ⟨b :: y₁, y₂, by simp [hy], by simp [simSeg, h.1, h1], h2⟩

theorem ciEqSeg_of_simSeg_word : ∀ x y p, simSeg x y = true →
    ciEqSeg x p = true → p.all isWordChar = true → ciEqSeg y p = true := by
  intro x
  induction x with
  | nil =>
    intro y p hs hc _
    cases y with
    | nil => exact hc
    | cons b bs => simp [simSeg] at hs
  | cons a as ih =>
    intro y p hs hc hw
    cases y with
    | nil => simp [simSeg] at hs
    | cons b bs =>
      cases p with
      | nil => simp [ciEqSeg] at hc
      | cons q qs =>
        simp only [simSeg, Bool.and_eq_true, Bool.or_eq_true,
          decide_eq_true_eq] at hs
        simp only [ciEqSeg, Bool.and_eq_true, decide_eq_true_eq] at hc ⊢
        simp only [List.all_cons, Bool.and_eq_true] at hw
        refine ⟨?_, ih bs qs hs.2 hc.2 hw.2⟩
        rcases hs.1 with heq | ⟨hsa, hsb⟩
        · rw [← heq]; exact hc.1
        · exfalso
          have hwa : isWordChar a = true := by
            rw [word_of_toLower_eq a q hc.1]; exact hw.1
          rw [isSpc_isWordChar_false a hsa] at hwa
          exact Bool.false_ne_true hwa

theorem all_spc_of_simSeg : ∀ x y, simSeg x y = true → x.all isSpc = true →
    y.all isSpc = true := by
  intro x
  induction x with
  | nil => intro y hs _; cases y with
    | nil => rfl
    | cons b bs => simp [simSeg] at hs
  | cons a as ih =>
    intro y hs hx
    cases y with
    | nil => rfl
    | cons b bs =>
      simp only [simSeg, Bool.and_eq_true, Bool.or_eq_true,
        decide_eq_true_eq] at hs
      simp only [List.all_cons, Bool.and_eq_true] at hx ⊢
      refine ⟨?_, ih bs hs.2 hx.2⟩
      rcases hs.1 with heq | ⟨_, hsb⟩
      · rw [← spc_of_toLower_eq a b heq]; exact hx.1
      · exact hsb

theorem notWord_of_simSeg_head (d d' : Char) (x y : List Char)
    (hs : simSeg (d :: x) (d' :: y) = true) (hd : isWordChar d = false) :
    isWordChar d' = false := by
  simp only [simSeg, Bool.and_eq_true, Bool.or_eq_true, decide_eq_true_eq] at hs
  rcases hs.1 with heq | ⟨_, hsb⟩
  · rw [← word_of_toLower_eq d d' heq]; exact hd
  · exact isSpc_isWordChar_false d' hsb

theorem matchAt_decomp (kw base s : List Char) (n : Nat)
    (h : matchAt kw base s = some n) :
    ∃ kseg sp bseg v, s = kseg ++ sp ++ bseg ++ v ∧ ciEqSeg kseg kw = true ∧
      sp ≠ [] ∧ sp.all isSpc = true ∧ ciEqSeg bseg base = true ∧
      boundB v = true ∧ n = kseg.length + sp.length + bseg.length := by
  cases h1 : ciStripPre kw s with
  | none => simp [matchAt, h1] at h
  | some r1 =>
    simp only [matchAt, h1] at h
    by_cases hsp : r1.takeWhile isSpc = []
    · rw [if_pos hsp] at h; exact absurd h (by simp)
    · rw [if_neg hsp] at h
      cases h2 : ciStripPre base (r1.dropWhile isSpc) with
      | none => simp [h2] at h
      | some r3 =>
        simp only [h2] at h
        by_cases hb : boundB r3 = true
        · rw [if_pos hb] at h
          simp only [Option.some.injEq] at h
          obtain ⟨kseg, hs1, hk⟩ := ciStripPre_some kw s r1 h1
          obtain ⟨bseg, hs2, hbs⟩ :=
            ciStripPre_some base (r1.dropWhile isSpc) r3 h2
          refine ⟨kseg, r1.takeWhile isSpc, bseg, r3, ?_, hk, hsp,
            all_takeWhile isSpc r1, hbs, hb, ?_⟩
          · rw [hs1]
            conv_lhs => rw [← List.takeWhile_append_dropWhile isSpc r1]
            rw [hs2]
            simp [List.append_assoc]
          · rw [← h, ciEqSeg_length kseg kw hk, ciEqSeg_length bseg base hbs]
        · rw [if_neg hb] at h; exact absurd h (by simp)

theorem matchAt_construct (kw base kseg sp bseg v : List Char)
    (hk : ciEqSeg kseg kw = true) (hspne : sp ≠ []) (hsp : sp.all isSpc = true)
    (hb : ciEqSeg bseg base = true) (hbound : boundB v = true)
    (hbase_ne : base ≠ []) (hbase_w : base.all isWordChar = true) :
    matchAt kw base (kseg ++ sp ++ bseg ++ v)
      = some (kseg.length + sp.length + bseg.length) := by
  have hbne : bseg ≠ [] := by
    intro hnil
    have := ciEqSeg_length bseg base hb
    rw [hnil] at this
    exact hbase_ne (List.length_eq_zero.mp this.symm)
  have hbw : bseg.all isWordChar = true := all_word_of_ciEqSeg bseg base hb hbase_w
  have hhead : ∀ d, (bseg ++ v).head? = some d → isSpc d = false := by
    intro d hd
    cases bseg with
    | nil => exact absurd rfl hbne
    | cons b0 brest =>
      simp only [List.cons_append, List.head?] at hd
      have hbd : b0 = d := by injection hd
      subst hbd
      simp only [List.all_cons, Bool.and_eq_true] at hbw
      cases hspc : isSpc b0
      · rfl
      · exfalso
        have hw1 := isSpc_isWordChar_false b0 hspc
        rw [hw1] at hbw
        exact absurd hbw.1 (by simp)
  have htd := takeWhile_append_eq isSpc sp (bseg ++ v) hsp hhead
  have h1 : ciStripPre kw (kseg ++ (sp ++ (bseg ++ v)))
      = some (sp ++ (bseg ++ v)) :=
    ciStripPre_of_ciEqSeg kseg kw _ hk
  have h2 : ciStripPre base (bseg ++ v) = some v :=
    ciStripPre_of_ciEqSeg bseg base v hb
  have hassoc : kseg ++ sp ++ bseg ++ v = kseg ++ (sp ++ (bseg ++ v)) := by
    simp [List.append_assoc]
  rw [hassoc]
  simp only [matchAt, h1]
  rw [htd.1, htd.2, if_neg hspne]
  simp only [h2, if_pos hbound]
  rw [ciEqSeg_length kseg kw hk, ciEqSeg_length bseg base hb]

theorem matchAt_pos (kw base s : List Char) (n : Nat)
    (h : matchAt kw base s = some n) : 0 < n ∧ n ≤ s.length := by
  obtain ⟨kseg, sp, bseg, v, hs, _, hspne, _, _, _, hn⟩ :=
    matchAt_decomp kw base s n h
  constructor
  · have : 0 < sp.length := List.length_pos.mpr hspne
    omega
  · rw [hs]
    simp [hn]
    omega

theorem substKwF_fuel (kw base act : List Char) : ∀ f g s pw,
    s.length ≤ f → s.length ≤ g →
    substKwF kw base act f pw s = substKwF kw base act g pw s := by
  intro f
  induction f with
  | zero =>
    intro g s pw hf _
    have hs : s = [] := List.length_eq_zero.mp (Nat.le_zero.mp hf)
    subst hs
    cases g with
    | zero => rfl
    | succ g => rfl
  | succ f ih =>
    intro g s pw hf hg
    cases s with
    | nil =>
      cases g with
      | zero => rfl
      | succ g => rfl
    | cons c cs =>
      cases g with
      | zero =>
        simp only [List.length_cons] at hg
        omega
      | succ g =>
        simp only [List.length_cons] at hf hg
        simp only [substKwF]
        cases pw with
        | true =>
          simp only [if_pos]
          rw [ih g cs (isWordChar c) (by omega) (by omega)]
        | false =>
          simp only [Bool.false_eq_true, if_false]
          cases hm : matchAt kw base (c :: cs) with
          | none =>
            dsimp only
            rw [ih g cs (isWordChar c) (by omega) (by omega)]
          | some n =>
            have hp := matchAt_pos kw base (c :: cs) n hm
            have hd : ((c :: cs).drop n).length ≤ f := by
              simp only [List.length_drop, List.length_cons]
              omega
            have hd' : ((c :: cs).drop n).length ≤ g := by
              simp only [List.length_drop, List.length_cons]
              omega
            dsimp only
            rw [ih g _ _ hd hd']

theorem substKw_nil (kw base act : List Char) (pw : Bool) :
    substKw kw base act pw [] = [] := rfl

theorem substKw_cons_true (kw base act : List Char) (c : Char) (cs : List Char) :
    substKw kw base act true (c :: cs)
      = c :: substKw kw base act (isWordChar c) cs := by
  simp only [substKw, List.length_cons, substKwF, if_pos]

theorem substKw_cons_none (kw base act : List Char) (c : Char) (cs : List Char)
    (h : matchAt kw base (c :: cs) = none) :
    substKw kw base act false (c :: cs)
      = c :: substKw kw base act (isWordChar c) cs := by
  simp only [substKw, List.length_cons, substKwF, Bool.false_eq_true, if_false, h]

theorem substKw_cons_some (kw base act : List Char) (c : Char) (cs : List Char)
    (n : Nat) (h : matchAt kw base (c :: cs) = some n) :
    substKw kw base act false (c :: cs)
      = replSeg kw act ++
          substKw kw base act (isWordChar (((c :: cs).take n).getLastD ' '))
            ((c :: cs).drop n) := by
  have hp := matchAt_pos kw base (c :: cs) n h
  simp only [substKw, List.length_cons, substKwF, Bool.false_eq_true, if_false, h]
  congr 1
  apply substKwF_fuel
  · simp only [List.length_drop, List.length_cons]
    omega
  · exact Nat.le_refl _

theorem noMatchB_nil (kw base : List Char) (pw : Bool) :
    noMatchB kw base pw [] = true := rfl

theorem noMatchB_cons (kw base : List Char) (pw : Bool) (c : Char)
    (cs : List Char) :
    noMatchB kw base pw (c :: cs)
      = ((pw || (matchAt kw base (c :: cs)).isNone) &&
          noMatchB kw base (isWordChar c) cs) := rfl

theorem substKw_id_of_noMatch (kw base act : List Char) : ∀ s pw,
    noMatchB kw base pw s = true → substKw kw base act pw s = s := by
  intro s
  induction s with
  | nil => intro pw _; exact substKw_nil kw base act pw
  | cons c cs ih =>
    intro pw h
    rw [noMatchB_cons, Bool.and_eq_true] at h
    cases pw with
    | true => rw [substKw_cons_true, ih (isWordChar c) h.2]
    | false =>
      have hnone : matchAt kw base (c :: cs) = none := by
        have h1 := h.1
        simp only [Bool.false_or, Option.isNone_iff_eq_none] at h1
        exact h1
      rw [substKw_cons_none kw base act c cs hnone, ih (isWordChar c) h.2]

theorem lastWord_cons (pw : Bool) (c : Char) (cs : List Char) :
    lastWord pw (c :: cs) = lastWord (isWordChar c) cs := by
  cases cs with
  | nil => rfl
  | cons d ds => simp [lastWord, List.getLast?]

theorem noMatchB_append (kw base : List Char) : ∀ x y pw,
    noMatchB kw base pw (x ++ y) = true →
    noMatchB kw base (lastWord pw x) y = true := by
  intro x
  induction x with
  | nil => intro y pw h; exact h
  | cons c cs ih =>
    intro y pw h
    rw [List.cons_append, noMatchB_cons, Bool.and_eq_true] at h
    rw [lastWord_cons]
    exact ih y (isWordChar c) h.2

theorem noMatchB_word_run (kw base : List Char) : ∀ q z,
    q.all isWordChar = true →
    noMatchB kw base true (q ++ z) = noMatchB kw base true z := by
  intro q
  induction q with
  | nil => intro z _; rfl
  | cons c cs ih =>
    intro z hq
    simp only [List.all_cons, Bool.and_eq_true] at hq
    rw [List.cons_append, noMatchB_cons, hq.1, ih z hq.2]
    simp

theorem word_spc_contra (c : Char) (hw : isWordChar c = true)
    (hs : isSpc c = true) : False := by
  rw [isSpc_isWordChar_false c hs] at hw
  exact Bool.false_ne_true hw

theorem matchAt_none_of_head (kw base : List Char) (d : Char) (w : List Char)
    (hkw : kw.all Char.isAlpha = true) (hkwne : kw ≠ [])
    (hd : isWordChar d = false) :
    matchAt kw base (d :: w) = none := by
  cases kw with
  | nil => exact absurd rfl hkwne
  | cons k ks =>
    have hkword : isWordChar k = true := by
      refine word_of_alpha k ?_
      simp only [List.all_cons, Bool.and_eq_true] at hkw
      exact hkw.1
    have hne : ¬ d.toLower = k.toLower := by
      intro heq
      have hwe := word_of_toLower_eq d k heq
      rw [hd, hkword] at hwe
      exact Bool.false_ne_true hwe
    unfold matchAt
    simp [ciStripPre, hne]

theorem matchAt_none_wordrun_quote (kw base q w : List Char)
    (hkw : kw.all Char.isAlpha = true)
    (hbne0 : base ≠ []) (hb1w : base.all isWordChar = true)
    (hq : q.all isWordChar = true) :
    matchAt kw base (q ++ '"' :: w) = none := by
  cases hm : matchAt kw base (q ++ '"' :: w) with
  | none => rfl
  | some n =>
    exfalso
    obtain ⟨t, sp, b, rest, hE, ht, hspne, hsp, hbseg, hbound, hn⟩ :=
      matchAt_decomp kw base _ n hm
    have htw : t.all isWordChar = true :=
      all_word_of_ciEqSeg t kw ht (all_word_of_alpha kw hkw)
    have hbne : b ≠ [] := by
      intro h0
      have hl := ciEqSeg_length b base hbseg
      rw [h0] at hl
      exact hbne0 (List.length_eq_zero.mp hl.symm)
    have hbw : b.all isWordChar = true := all_word_of_ciEqSeg b base hbseg hb1w
    have hE' : q ++ ('"' :: w) = t ++ (sp ++ (b ++ rest)) := by
      rw [hE]; simp [List.append_assoc]
    rcases List.append_eq_append_iff.mp hE' with ⟨a', hP, hX⟩ | ⟨c', hQ, hY⟩
    · cases a' with
      | nil =>
        simp only [List.nil_append] at hX
        cases sp with
        | nil => exact hspne rfl
        | cons s0 stl =>
          simp only [List.cons_append] at hX
          injection hX with h1 _
          have hs0 := List.all_eq_true.mp hsp s0 (List.mem_cons_self s0 stl)
          rw [← h1] at hs0
          exact absurd hs0 (by decide)
      | cons a0 atl =>
        simp only [List.cons_append] at hX
        injection hX with h1 _
        have ha0t : a0 ∈ t := by
          rw [hP]
          exact List.mem_append_right q (List.mem_cons_self a0 atl)
        have := List.all_eq_true.mp htw a0 ha0t
        rw [← h1] at this
        exact absurd this (by decide)
    · rcases List.append_eq_append_iff.mp hY with ⟨a₂, hc', _⟩ | ⟨c₂, hsp2, hqw2⟩
      · cases sp with
        | nil => exact hspne rfl
        | cons s0 stl =>
          have hs0q : s0 ∈ q := by
            rw [hQ, hc']
            exact List.mem_append_right t
              (List.mem_append_left a₂ (List.mem_cons_self s0 stl))
          exact word_spc_contra s0 (List.all_eq_true.mp hq s0 hs0q)
            (List.all_eq_true.mp hsp s0 (List.mem_cons_self s0 stl))
      · cases c₂ with
        | nil =>
          simp only [List.append_nil] at hsp2
          cases sp with
          | nil => exact hspne rfl
          | cons s0 stl =>
            have hs0q : s0 ∈ q := by
              rw [hQ, ← hsp2]
              exact List.mem_append_right t (List.mem_cons_self s0 stl)
            exact word_spc_contra s0 (List.all_eq_true.mp hq s0 hs0q)
              (List.all_eq_true.mp hsp s0 (List.mem_cons_self s0 stl))
        | cons e0 etl =>
          simp only [List.cons_append] at hqw2
          injection hqw2 with h1 _
          have he0sp : e0 ∈ sp := by
            rw [hsp2]
            exact List.mem_append_right c' (List.mem_cons_self e0 etl)
          have := List.all_eq_true.mp hsp e0 he0sp
          rw [← h1] at this
          exact absurd this (by decide)

theorem matchAt_none_kw_space_quote (kw base kw2 w : List Char)
    (hkw : kw.all Char.isAlpha = true)
    (hbne0 : base ≠ []) (hb1w : base.all isWordChar = true)
    (hkw2 : kw2.all Char.isAlpha = true) :
    matchAt kw base (kw2 ++ ' ' :: '"' :: w) = none := by
  cases hm : matchAt kw base (kw2 ++ ' ' :: '"' :: w) with
  | none => rfl
  | some n =>
    exfalso
    obtain ⟨t, sp, b, rest, hE, ht, hspne, hsp, hbseg, hbound, hn⟩ :=
      matchAt_decomp kw base _ n hm
    have htw : t.all isWordChar = true :=
      all_word_of_ciEqSeg t kw ht (all_word_of_alpha kw hkw)
    have hk2w : kw2.all isWordChar = true := all_word_of_alpha kw2 hkw2
    have hbne : b ≠ [] := by
      intro h0
      have hl := ciEqSeg_length b base hbseg
      rw [h0] at hl
      exact hbne0 (List.length_eq_zero.mp hl.symm)
    have hbw : b.all isWordChar = true := all_word_of_ciEqSeg b base hbseg hb1w
    have hE' : kw2 ++ (' ' :: '"' :: w) = t ++ (sp ++ (b ++ rest)) := by
      rw [hE]; simp [List.append_assoc]
    rcases List.append_eq_append_iff.mp hE' with ⟨a', hP, hX⟩ | ⟨c', hQ, hY⟩
    · cases a' with
      | nil =>
        simp only [List.nil_append] at hX
        cases sp with
        | nil => exact hspne rfl
        | cons s0 stl =>
          simp only [List.cons_append] at hX
          injection hX with h1 h2
          cases stl with
          | nil =>
            simp only [List.nil_append] at h2
            cases b with
            | nil => exact hbne rfl
            | cons b0 btl =>
              simp only [List.cons_append] at h2
              injection h2 with h3 _
              have := List.all_eq_true.mp hbw b0 (List.mem_cons_self b0 btl)
              rw [← h3] at this
              exact absurd this (by decide)
          | cons s1 stl' =>
            simp only [List.cons_append] at h2
            injection h2 with h3 _
            have := List.all_eq_true.mp hsp s1
              (List.mem_cons_of_mem s0 (List.mem_cons_self s1 stl'))
            rw [← h3] at this
            exact absurd this (by decide)
      | cons a0 atl =>
        simp only [List.cons_append] at hX
        injection hX with h1 _
        have ha0t : a0 ∈ t := by
          rw [hP]
          exact List.mem_append_right kw2 (List.mem_cons_self a0 atl)
        have := List.all_eq_true.mp htw a0 ha0t
        rw [← h1] at this
        exact absurd this (by decide)
    · rcases List.append_eq_append_iff.mp hY with ⟨a₂, hc', _⟩ | ⟨c₂, hsp2, hqw2⟩
      · cases sp with
        | nil => exact hspne rfl
        | cons s0 stl =>
          have hs0q : s0 ∈ kw2 := by
            rw [hQ, hc']
            exact List.mem_append_right t
              (List.mem_append_left a₂ (List.mem_cons_self s0 stl))
          exact word_spc_contra s0 (List.all_eq_true.mp hk2w s0 hs0q)
            (List.all_eq_true.mp hsp s0 (List.mem_cons_self s0 stl))
      · cases c₂ with
        | nil =>
          simp only [List.append_nil] at hsp2
          cases sp with
          | nil => exact hspne rfl
          | cons s0 stl =>
            have hs0q : s0 ∈ kw2 := by
              rw [hQ, ← hsp2]
              exact List.mem_append_right t (List.mem_cons_self s0 stl)
            exact word_spc_contra s0 (List.all_eq_true.mp hk2w s0 hs0q)
              (List.all_eq_true.mp hsp s0 (List.mem_cons_self s0 stl))
        | cons e0 etl =>
          simp only [List.cons_append] at hqw2
          injection hqw2 with h1 h2
          cases etl with
          | nil =>
            simp only [List.nil_append] at h2
            cases b with
            | nil => exact hbne rfl
            | cons b0 btl =>
              simp only [List.cons_append] at h2
              injection h2 with h3 _
              have := List.all_eq_true.mp hbw b0 (List.mem_cons_self b0 btl)
              rw [← h3] at this
              exact absurd this (by decide)
          | cons e1 etl' =>
            simp only [List.cons_append] at h2
            injection h2 with h3 _
            have he1sp : e1 ∈ sp := by
              rw [hsp2]
              exact List.mem_append_right c'
                (List.mem_cons_of_mem e0 (List.mem_cons_self e1 etl'))
            have := List.all_eq_true.mp hsp e1 he1sp
            rw [← h3] at this
            exact absurd this (by decide)

theorem consumed_prefix (t sp b rest P Q : List Char)
    (hE : t ++ sp ++ b ++ rest = P ++ ' ' :: '"' :: Q)
    (htw : t.all isWordChar = true) (hsp : sp.all isSpc = true)
    (hbw : b.all isWordChar = true) (hbne : b ≠ []) :
    ∃ tail, P = (t ++ sp ++ b) ++ tail ∧ rest = tail ++ ' ' :: '"' :: Q := by
  obtain ⟨b', bl, rfl⟩ : ∃ b' bl, b = b' ++ [bl] := by
    rcases List.eq_nil_or_concat b with h | ⟨L, x, hx⟩
    · exact absurd h hbne
    · exact ⟨L, x, by rw [hx, List.concat_eq_append]⟩
  have hblw : isWordChar bl = true :=
    List.all_eq_true.mp hbw bl
      (List.mem_append_right b' (List.mem_singleton.mpr rfl))
  have hE' : (t ++ sp ++ b') ++ (bl :: rest) = P ++ (' ' :: '"' :: Q) := by
    rw [← hE]; simp [List.append_assoc]
  rcases List.append_eq_append_iff.mp hE' with ⟨a', hP, hX⟩ | ⟨c', hC, hY⟩
  · cases a' with
    | nil =>
      simp only [List.nil_append] at hX
      injection hX with h1 _
      rw [h1] at hblw
      exact absurd hblw (by decide)
    | cons a0 atl =>
      simp only [List.cons_append] at hX
      injection hX with h1 h2
      refine ⟨atl, ?_, h2⟩
      rw [hP, ← h1]
      simp [List.append_assoc]
  · cases c' with
    | nil =>
      simp only [List.nil_append] at hY
      injection hY with h1 _
      rw [← h1] at hblw
      exact absurd hblw (by decide)
    | cons c0 ctl =>
      simp only [List.cons_append] at hY
      injection hY with h1 h2
      cases ctl with
      | nil =>
        simp only [List.nil_append] at h2
        injection h2 with h3 _
        rw [← h3] at hblw
        exact absurd hblw (by decide)
      | cons c1 ctl' =>
        simp only [List.cons_append] at h2
        injection h2 with h3 _
        exfalso
        have hc1 : c1 ∈ t ++ sp ++ b' := by
          rw [hC]
          exact List.mem_append_right P
            (List.mem_cons_of_mem c0 (List.mem_cons_self c1 ctl'))
        rw [← h3] at hc1
        rcases List.mem_append.mp hc1 with h4 | h4
        · rcases List.mem_append.mp h4 with h5 | h5
          · exact absurd (List.all_eq_true.mp htw _ h5) (by decide)
          · exact absurd (List.all_eq_true.mp hsp _ h5) (by decide)
        · exact absurd
            (List.all_eq_true.mp hbw _ (List.mem_append_left [bl] h4)) (by decide)

theorem matchAt_cross (kw base KW2 ACT2 u X kseg spi bseg Y : List Char)
    (hkw : kw.all Char.isAlpha = true)
    (hbne0 : base ≠ []) (hb1w : base.all isWordChar = true)
    (hkseg : ciEqSeg kseg KW2 = true)
    (hspine : spi ≠ []) (hspi : spi.all isSpc = true)
    (n : Nat)
    (hm : matchAt kw base (u ++ replSeg KW2 ACT2 ++ X) = some n) :
    ∃ n', matchAt kw base (u ++ (kseg ++ spi ++ bseg ++ Y)) = some n' := by
  obtain ⟨t, sp, b, rest, hE, ht, hspne, hsp, hbseg, hbound, hn⟩ :=
    matchAt_decomp kw base _ n hm
  have hkww : kw.all isWordChar = true := all_word_of_alpha kw hkw
  have htw : t.all isWordChar = true := all_word_of_ciEqSeg t kw ht hkww
  have hbw : b.all isWordChar = true := all_word_of_ciEqSeg b base hbseg hb1w
  have hbne : b ≠ [] := by
    intro h0
    have hl := ciEqSeg_length b base hbseg
    rw [h0] at hl
    exact hbne0 (List.length_eq_zero.mp hl.symm)
  have hE2 : t ++ sp ++ b ++ rest
      = (u ++ KW2) ++ ' ' :: '"' :: (ACT2 ++ '"' :: X) := by
    rw [← hE]
    simp [replSeg, List.append_assoc]
  obtain ⟨tail, hPdecomp, hrest⟩ :=
    consumed_prefix t sp b rest (u ++ KW2) (ACT2 ++ '"' :: X) hE2 htw hsp hbw hbne
  have hsim : simSeg (u ++ KW2) (u ++ kseg) = true :=
    simSeg_append u u KW2 kseg (simSeg_refl u)
      (simSeg_of_ciEqSeg KW2 kseg (ciEqSeg_symm kseg KW2 hkseg))
  rw [hPdecomp] at hsim
  obtain ⟨C₂, tail₂, hUK, hsimC, hsimTail⟩ :=
    simSeg_split (t ++ sp ++ b) tail (u ++ kseg) hsim
  obtain ⟨tsp₂, b₂, hC2, hsimTsp, hsimB⟩ := simSeg_split (t ++ sp) b C₂ hsimC
  obtain ⟨t₂, sp₂, hTsp, hsimT, hsimSp⟩ := simSeg_split t sp tsp₂ hsimTsp
  have hciT2 : ciEqSeg t₂ kw = true := ciEqSeg_of_simSeg_word t t₂ kw hsimT ht hkww
  have hsp₂ : sp₂.all isSpc = true := all_spc_of_simSeg sp sp₂ hsimSp hsp
  have hsp₂ne : sp₂ ≠ [] := by
    intro h0
    have hl := simSeg_length sp sp₂ hsimSp
    rw [h0] at hl
    exact hspne (List.length_eq_zero.mp hl)
  have hciB2 : ciEqSeg b₂ base = true :=
    ciEqSeg_of_simSeg_word b b₂ base hsimB hbseg hb1w
  have hbb : boundB (tail₂ ++ (spi ++ (bseg ++ Y))) = true := by
    cases tail₂ with
    | nil =>
      cases spi with
      | nil => exact absurd rfl hspine
      | cons si0 sitl =>
        have hsi0 := List.all_eq_true.mp hspi si0 (List.mem_cons_self si0 sitl)
        simp only [List.nil_append, List.cons_append, boundB]
        rw [isSpc_isWordChar_false si0 hsi0]
        rfl
    | cons d₂ dtl₂ =>
      cases tail with
      | nil =>
        exact absurd (simSeg_length [] (d₂ :: dtl₂) hsimTail) (by simp)
      | cons d dtl =>
        have hdw : isWordChar d = false := by
          rw [hrest] at hbound
          simp only [List.cons_append, boundB] at hbound
          cases hw : isWordChar d
          · rfl
          · rw [hw] at hbound; exact absurd hbound (by decide)
        have := notWord_of_simSeg_head d d₂ dtl dtl₂ hsimTail hdw
        simp only [List.cons_append, boundB]
        rw [this]
        rfl
  have hstr : u ++ (kseg ++ spi ++ bseg ++ Y)
      = t₂ ++ sp₂ ++ b₂ ++ (tail₂ ++ (spi ++ (bseg ++ Y))) := by
    have h1 : u ++ kseg = t₂ ++ sp₂ ++ b₂ ++ tail₂ := by
      rw [hUK, hC2, hTsp]
    have h2 : u ++ (kseg ++ spi ++ bseg ++ Y)
        = (u ++ kseg) ++ (spi ++ (bseg ++ Y)) := by
      simp [List.append_assoc]
    rw [h2, h1]
    simp [List.append_assoc]
  rw [hstr]
  exact ⟨_, matchAt_construct kw base t₂ sp₂ b₂ (tail₂ ++ (spi ++ (bseg ++ Y)))
    hciT2 hsp₂ne hsp₂ hciB2 hbb hbne0 hb1w⟩

theorem getLastD_snoc (l : List Char) (a d : Char) :
    (l ++ [a]).getLastD d = a := by
  induction l with
  | nil => rfl
  | cons x xs ih =>
    cases xs with
    | nil => rfl
    | cons y ys => simpa using ih

theorem lastWord_snoc (pw : Bool) (l : List Char) (a : Char) :
    lastWord pw (l ++ [a]) = isWordChar a := by
  induction l generalizing pw with
  | nil => rfl
  | cons x xs ih =>
    rw [List.cons_append, lastWord_cons]
    exact ih (isWordChar x)

theorem matchAt_subst_reflect (kw1 base1 kw2 base2 act2 : List Char)
    (hkw1 : kw1.all Char.isAlpha = true)
    (hb1ne : base1 ≠ []) (hb1w : base1.all isWordChar = true) :
    ∀ s pw u n,
      matchAt kw1 base1 (u ++ substKw kw2 base2 act2 pw s) = some n →
      ∃ n', matchAt kw1 base1 (u ++ s) = some n' := by
  intro s
  induction s with
  | nil =>
    intro pw u n h
    rw [substKw_nil] at h
    exact ⟨n, h⟩
  | cons c cs ih =>
    intro pw u n h
    have hstep : ∀ m,
        matchAt kw1 base1 (u ++ (c :: substKw kw2 base2 act2 (isWordChar c) cs))
          = some m →
        ∃ n', matchAt kw1 base1 (u ++ c :: cs) = some n' := by
      intro m hm
      rw [show u ++ (c :: substKw kw2 base2 act2 (isWordChar c) cs)
            = (u ++ [c]) ++ substKw kw2 base2 act2 (isWordChar c) cs by simp] at hm
      obtain ⟨n', h'⟩ := ih (isWordChar c) (u ++ [c]) m hm
      refine ⟨n', ?_⟩
      rw [show u ++ c :: cs = (u ++ [c]) ++ cs by simp]
      exact h'
    cases pw with
    | true =>
      rw [substKw_cons_true] at h
      exact hstep n h
    | false =>
      cases hm : matchAt kw2 base2 (c :: cs) with
      | none =>
        rw [substKw_cons_none kw2 base2 act2 c cs hm] at h
        exact hstep n h
      | some m =>
        rw [substKw_cons_some kw2 base2 act2 c cs m hm] at h
        obtain ⟨kseg, sp, bseg, v, hE, hk, hspne, hsp, hb, hbound, hmn⟩ :=
          matchAt_decomp kw2 base2 (c :: cs) m hm
        have hdrop : (c :: cs).drop m = v := by
          rw [hE, hmn,
            show kseg.length + sp.length + bseg.length
              = (kseg ++ sp ++ bseg).length by
                simp only [List.length_append]]
          exact List.drop_left _ _
        rw [hdrop] at h
        rw [show u ++ (replSeg kw2 act2 ++
              substKw kw2 base2 act2
                (isWordChar (((c :: cs).take m).getLastD ' ')) v)
            = u ++ replSeg kw2 act2 ++
              substKw kw2 base2 act2
                (isWordChar (((c :: cs).take m).getLastD ' ')) v by
          simp [List.append_assoc]] at h
        obtain ⟨n', h'⟩ := matchAt_cross kw1 base1 kw2 act2 u
          (substKw kw2 base2 act2 (isWordChar (((c :: cs).take m).getLastD ' ')) v)
          kseg sp bseg v hkw1 hb1ne hb1w hk hspne hsp n h
        refine ⟨n', ?_⟩
        rw [show u ++ c :: cs = u ++ (kseg ++ sp ++ bseg ++ v) by rw [← hE]]
        exact h'

theorem noMatchB_replSeg (kw1 base1 kw2 act2 : List Char)
    (hkw1 : kw1.all Char.isAlpha = true) (hkw1ne : kw1 ≠ [])
    (hb1ne : base1 ≠ []) (hb1w : base1.all isWordChar = true)
    (hkw2 : kw2.all Char.isAlpha = true) (hkw2ne : kw2 ≠ [])
    (hact2 : act2.all isWordChar = true) (Z : List Char)
    (hZ : noMatchB kw1 base1 false Z = true) :
    noMatchB kw1 base1 false (replSeg kw2 act2 ++ Z) = true := by
  have htail : noMatchB kw1 base1 false (act2 ++ '"' :: Z) = true := by
    cases act2 with
    | nil =>
      rw [List.nil_append, noMatchB_cons, Bool.and_eq_true]
      constructor
      · rw [matchAt_none_of_head kw1 base1 '"' Z hkw1 hkw1ne (by decide)]
        rfl
      · rw [show isWordChar '"' = false from by decide]
        exact hZ
    | cons a0 arest =>
      simp only [List.all_cons, Bool.and_eq_true] at hact2
      rw [List.cons_append, noMatchB_cons, Bool.and_eq_true]
      constructor
      · rw [show a0 :: (arest ++ '"' :: Z) = (a0 :: arest) ++ '"' :: Z from rfl,
          matchAt_none_wordrun_quote kw1 base1 (a0 :: arest) Z hkw1 hb1ne hb1w
            (by simp [List.all_cons, hact2.1, hact2.2])]
        rfl
      · rw [hact2.1, noMatchB_word_run kw1 base1 arest _ hact2.2, noMatchB_cons]
        simp only [Bool.true_or, Bool.true_and]
        rw [show isWordChar '"' = false from by decide]
        exact hZ
  have hshape : replSeg kw2 act2 ++ Z = kw2 ++ ' ' :: '"' :: (act2 ++ '"' :: Z) := by
    simp [replSeg, List.append_assoc]
  rw [hshape]
  cases kw2 with
  | nil => exact absurd rfl hkw2ne
  | cons k0 krest =>
    simp only [List.all_cons, Bool.and_eq_true] at hkw2
    rw [List.cons_append, noMatchB_cons, Bool.and_eq_true]
    constructor
    · rw [show k0 :: (krest ++ ' ' :: '"' :: (act2 ++ '"' :: Z))
          = (k0 :: krest) ++ ' ' :: '"' :: (act2 ++ '"' :: Z) from rfl,
        matchAt_none_kw_space_quote kw1 base1 (k0 :: krest) (act2 ++ '"' :: Z)
          hkw1 hb1ne hb1w (by simp [List.all_cons, hkw2.1, hkw2.2])]
      rfl
    · rw [word_of_alpha k0 hkw2.1,
        noMatchB_word_run kw1 base1 krest _ (all_word_of_alpha krest hkw2.2),
        noMatchB_cons]
      simp only [Bool.true_or, Bool.true_and]
      rw [show isWordChar ' ' = false from by decide, noMatchB_cons,
        Bool.and_eq_true]
      constructor
      · rw [matchAt_none_of_head kw1 base1 '"' (act2 ++ '"' :: Z) hkw1 hkw1ne
          (by decide)]
        rfl
      · rw [show isWordChar '"' = false from by decide]
        exact htail

theorem noMatchB_subst (kw1 base1 kw2 base2 act2 : List Char)
    (hkw1 : kw1.all Char.isAlpha = true) (hkw1ne : kw1 ≠ [])
    (hb1ne : base1 ≠ []) (hb1w : base1.all isWordChar = true)
    (hkw2 : kw2.all Char.isAlpha = true) (hkw2ne : kw2 ≠ [])
    (hb2ne : base2 ≠ []) (hb2w : base2.all isWordChar = true)
    (hact2 : act2.all isWordChar = true) :
    ∀ L s pw, s.length ≤ L →
    ((kw1 = kw2 ∧ base1 = base2) ∨ noMatchB kw1 base1 pw s = true) →
    noMatchB kw1 base1 pw (substKw kw2 base2 act2 pw s) = true := by
  intro L
  induction L with
  | zero =>
    intro s pw hlen _
    have hs : s = [] := List.length_eq_zero.mp (Nat.le_zero.mp hlen)
    subst hs
    rw [substKw_nil]
    exact noMatchB_nil kw1 base1 pw
  | succ L ih =>
    intro s pw hlen hpre
    cases s with
    | nil =>
      rw [substKw_nil]
      exact noMatchB_nil kw1 base1 pw
    | cons c cs =>
      simp only [List.length_cons] at hlen
      have htail_pre :
          (kw1 = kw2 ∧ base1 = base2) ∨
            noMatchB kw1 base1 (isWordChar c) cs = true := by
        rcases hpre with hself | hnm
        · exact Or.inl hself
        · right
          rw [noMatchB_cons, Bool.and_eq_true] at hnm
          exact hnm.2
      cases pw with
      | true =>
        rw [substKw_cons_true, noMatchB_cons, Bool.and_eq_true]
        refine ⟨by simp, ?_⟩
        exact ih cs (isWordChar c) (by omega) htail_pre
      | false =>
        cases hm : matchAt kw2 base2 (c :: cs) with
        | none =>
          rw [substKw_cons_none kw2 base2 act2 c cs hm, noMatchB_cons,
            Bool.and_eq_true]
          constructor
          · simp only [Bool.false_or, Option.isNone_iff_eq_none]
            cases hmm : matchAt kw1 base1
                (c :: substKw kw2 base2 act2 (isWordChar c) cs) with
            | none => rfl
            | some n =>
              exfalso
              have hmm' : matchAt kw1 base1
                  ([c] ++ substKw kw2 base2 act2 (isWordChar c) cs) = some n := by
                rw [List.singleton_append]
                exact hmm
              obtain ⟨n', hn'⟩ := matchAt_subst_reflect kw1 base1 kw2 base2 act2
                hkw1 hb1ne hb1w cs (isWordChar c) [c] n hmm'
              rw [List.singleton_append] at hn'
              rcases hpre with ⟨hk, hb⟩ | hnm
              · rw [← hk, ← hb] at hm
                rw [hm] at hn'
                cases hn'
              · rw [noMatchB_cons, Bool.and_eq_true] at hnm
                have h1 := hnm.1
                simp only [Bool.false_or, Option.isNone_iff_eq_none] at h1
                rw [h1] at hn'
                cases hn'
          · exact ih cs (isWordChar c) (by omega) htail_pre
        | some m =>
          rw [substKw_cons_some kw2 base2 act2 c cs m hm]
          obtain ⟨kseg, sp, bseg, v, hE, hk, hspne, hsp, hb, hbound, hmn⟩ :=
            matchAt_decomp kw2 base2 (c :: cs) m hm
          have hpos := matchAt_pos kw2 base2 (c :: cs) m hm
          have hbsw : bseg.all isWordChar = true :=
            all_word_of_ciEqSeg bseg base2 hb hb2w
          have hbsne : bseg ≠ [] := by
            intro h0
            have hl := ciEqSeg_length bseg base2 hb
            rw [h0] at hl
            exact hb2ne (List.length_eq_zero.mp hl.symm)
          have hdrop : (c :: cs).drop m = v := by
            rw [hE, hmn,
              show kseg.length + sp.length + bseg.length
                = (kseg ++ sp ++ bseg).length by
                  simp only [List.length_append]]
            exact List.drop_left _ _
          have htake : (c :: cs).take m = kseg ++ sp ++ bseg := by
            rw [hE, hmn,
              show kseg.length + sp.length + bseg.length
                = (kseg ++ sp ++ bseg).length by
                  simp only [List.length_append]]
            exact List.take_left _ _
          have hst : isWordChar (((c :: cs).take m).getLastD ' ') = true := by
            rw [htake]
            obtain ⟨b', bl, hbl⟩ : ∃ b' bl, bseg = b' ++ [bl] := by
              rcases List.eq_nil_or_concat bseg with h0 | ⟨LL, x, hx⟩
              · exact absurd h0 hbsne
              · exact ⟨LL, x, by rw [hx, List.concat_eq_append]⟩
            rw [hbl,
              show kseg ++ sp ++ (b' ++ [bl]) = (kseg ++ sp ++ b') ++ [bl] by
                simp [List.append_assoc],
              getLastD_snoc]
            exact List.all_eq_true.mp hbsw bl
              (by rw [hbl]; exact List.mem_append_right b' (List.mem_singleton.mpr rfl))
          rw [hdrop, hst]
          apply noMatchB_replSeg kw1 base1 kw2 act2 hkw1 hkw1ne hb1ne hb1w
            hkw2 hkw2ne hact2
          cases v with
          | nil =>
            rw [substKw_nil]
            exact noMatchB_nil kw1 base1 false
          | cons r0 rtl =>
            have hr0 : isWordChar r0 = false := by
              simp only [boundB] at hbound
              cases hw : isWordChar r0
              · rfl
              · rw [hw] at hbound; exact absurd hbound (by decide)
            rw [substKw_cons_true kw2 base2 act2 r0 rtl, hr0, noMatchB_cons,
              Bool.and_eq_true]
            constructor
            · simp only [Bool.false_or, Option.isNone_iff_eq_none]
              exact matchAt_none_of_head kw1 base1 r0 _ hkw1 hkw1ne hr0
            · rw [hr0]
              have hrlen : rtl.length ≤ L := by
                have hvlen : (List.drop m (c :: cs)).length = cs.length + 1 - m := by
                  simp [List.length_drop]
                rw [hdrop] at hvlen
                simp only [List.length_cons] at hvlen
                omega
              apply ih rtl false hrlen
              rcases hpre with hself | hnm
              · exact Or.inl hself
              · right
                have hsplit : c :: cs = ((kseg ++ sp ++ bseg) ++ [r0]) ++ rtl := by
                  rw [hE]
                  simp [List.append_assoc]
                rw [hsplit] at hnm
                have h2 := noMatchB_append kw1 base1
                  ((kseg ++ sp ++ bseg) ++ [r0]) rtl false hnm
                rw [lastWord_snoc false (kseg ++ sp ++ bseg) r0, hr0] at h2
                exact h2

theorem tableKeywords_wf :
    ∀ kw ∈ tableKeywords, kw.all Char.isAlpha = true ∧ kw ≠ [] := by decide

theorem substKw_noMatch_self (kw base act : List Char)
    (hkw : kw.all Char.isAlpha = true) (hkwne : kw ≠ [])
    (hbne : base ≠ []) (hbw : base.all isWordChar = true)
    (hact : act.all isWordChar = true) (s : List Char) (pw : Bool) :
    noMatchB kw base pw (substKw kw base act pw s) = true :=
  noMatchB_subst kw base kw base act hkw hkwne hbne hbw hkw hkwne hbne hbw hact
    s.length s pw (Nat.le_refl _) (Or.inl ⟨rfl, rfl⟩)

theorem substKw_noMatch_other (kw1 base1 kw2 base2 act2 : List Char)
    (hkw1 : kw1.all Char.isAlpha = true) (hkw1ne : kw1 ≠ [])
    (hb1ne : base1 ≠ []) (hb1w : base1.all isWordChar = true)
    (hkw2 : kw2.all Char.isAlpha = true) (hkw2ne : kw2 ≠ [])
    (hb2ne : base2 ≠ []) (hb2w : base2.all isWordChar = true)
    (hact2 : act2.all isWordChar = true)
    (s : List Char) (pw : Bool) (h : noMatchB kw1 base1 pw s = true) :
    noMatchB kw1 base1 pw (substKw kw2 base2 act2 pw s) = true :=
  noMatchB_subst kw1 base1 kw2 base2 act2 hkw1 hkw1ne hb1ne hb1w hkw2 hkw2ne
    hb2ne hb2w hact2 s.length s pw (Nat.le_refl _) (Or.inr h)

theorem applyEntry_preserves (kw g : List Char) (e : List Char × List Char)
    (hkw : kw.all Char.isAlpha = true) (hkwne : kw ≠ [])
    (hgne : g ≠ []) (hgw : g.all isWordChar = true)
    (he1 : e.1 ≠ []) (he1w : e.1.all isWordChar = true)
    (he2w : e.2.all isWordChar = true)
    (s : List Char) (h : noMatchB kw g false s = true) :
    noMatchB kw g false (applyEntry s e) = true := by
  show noMatchB kw g false
    (substKw "INTO".data e.1 e.2 false
      (substKw "UPDATE".data e.1 e.2 false
        (substKw "JOIN".data e.1 e.2 false
          (substKw "FROM".data e.1 e.2 false s)))) = true
  apply substKw_noMatch_other kw g "INTO".data e.1 e.2 hkw hkwne hgne hgw
    (by decide) (by decide) he1 he1w he2w _ false
  apply substKw_noMatch_other kw g "UPDATE".data e.1 e.2 hkw hkwne hgne hgw
    (by decide) (by decide) he1 he1w he2w _ false
  apply substKw_noMatch_other kw g "JOIN".data e.1 e.2 hkw hkwne hgne hgw
    (by decide) (by decide) he1 he1w he2w _ false
  exact substKw_noMatch_other kw g "FROM".data e.1 e.2 hkw hkwne hgne hgw
    (by decide) (by decide) he1 he1w he2w s false h

theorem applyEntry_self (e : List Char × List Char)
    (he1 : e.1 ≠ []) (he1w : e.1.all isWordChar = true)
    (he2w : e.2.all isWordChar = true) (s : List Char) :
    ∀ kw ∈ tableKeywords, noMatchB kw e.1 false (applyEntry s e) = true := by
  intro kw hkw
  show noMatchB kw e.1 false
    (substKw "INTO".data e.1 e.2 false
      (substKw "UPDATE".data e.1 e.2 false
        (substKw "JOIN".data e.1 e.2 false
          (substKw "FROM".data e.1 e.2 false s)))) = true
  simp only [tableKeywords, List.mem_cons, List.not_mem_nil, or_false] at hkw
  rcases hkw with rfl | rfl | rfl | rfl
  · apply substKw_noMatch_other _ e.1 "INTO".data e.1 e.2 (by decide) (by decide)
      he1 he1w (by decide) (by decide) he1 he1w he2w _ false
    apply substKw_noMatch_other _ e.1 "UPDATE".data e.1 e.2 (by decide) (by decide)
      he1 he1w (by decide) (by decide) he1 he1w he2w _ false
    apply substKw_noMatch_other _ e.1 "JOIN".data e.1 e.2 (by decide) (by decide)
      he1 he1w (by decide) (by decide) he1 he1w he2w _ false
    exact substKw_noMatch_self "FROM".data e.1 e.2 (by decide) (by decide)
      he1 he1w he2w s false
  · apply substKw_noMatch_other _ e.1 "INTO".data e.1 e.2 (by decide) (by decide)
      he1 he1w (by decide) (by decide) he1 he1w he2w _ false
    apply substKw_noMatch_other _ e.1 "UPDATE".data e.1 e.2 (by decide) (by decide)
      he1 he1w (by decide) (by decide) he1 he1w he2w _ false
    exact substKw_noMatch_self "JOIN".data e.1 e.2 (by decide) (by decide)
      he1 he1w he2w _ false
  · apply substKw_noMatch_other _ e.1 "INTO".data e.1 e.2 (by decide) (by decide)
      he1 he1w (by decide) (by decide) he1 he1w he2w _ false
    exact substKw_noMatch_self "UPDATE".data e.1 e.2 (by decide) (by decide)
      he1 he1w he2w _ false
  · exact substKw_noMatch_self "INTO".data e.1 e.2 (by decide) (by decide)
      he1 he1w he2w _ false

theorem correctSql_preserves (kw g : List Char)
    (hkw : kw.all Char.isAlpha = true) (hkwne : kw ≠ [])
    (hgne : g ≠ []) (hgw : g.all isWordChar = true) :
    ∀ (m : List (List Char × List Char)) (s : List Char),
      (∀ e ∈ m, e.1 ≠ [] ∧ e.1.all isWordChar = true ∧
        e.2.all isWordChar = true) →
      noMatchB kw g false s = true →
      noMatchB kw g false (correctSql m s) = true := by
  intro m
  induction m with
  | nil => intro s _ h; exact h
  | cons e m' ih =>
    intro s hm h
    show noMatchB kw g false (correctSql m' (applyEntry s e)) = true
    obtain ⟨h1, h2, h3⟩ := hm e (List.mem_cons_self e m')
    exact ih (applyEntry s e) (fun e' he' => hm e' (List.mem_cons_of_mem e he'))
      (applyEntry_preserves kw g e hkw hkwne hgne hgw h1 h2 h3 s h)

theorem correctSql_noMatch :
    ∀ (m : List (List Char × List Char)) (s : List Char),
      (∀ e ∈ m, e.1 ≠ [] ∧ e.1.all isWordChar = true ∧
        e.2.all isWordChar = true) →
      ∀ e ∈ m, ∀ kw ∈ tableKeywords,
        noMatchB kw e.1 false (correctSql m s) = true := by
  intro m
  induction m with
  | nil => intro s _ e he; exact absurd he (List.not_mem_nil e)
  | cons e₀ m' ih =>
    intro s hm e he kw hkw
    show noMatchB kw e.1 false (correctSql m' (applyEntry s e₀)) = true
    rcases List.mem_cons.mp he with rfl | he'
    · obtain ⟨h1, h2, h3⟩ := hm e (List.mem_cons_self e m')
      have hkwwf := tableKeywords_wf kw hkw
      exact correctSql_preserves kw e.1 hkwwf.1 hkwwf.2 h1 h2 m'
        (applyEntry s e)
        (fun e' he' => hm e' (List.mem_cons_of_mem e he'))
        (applyEntry_self e h1 h2 h3 s kw hkw)
    · exact ih (applyEntry s e₀)
        (fun e' he' => hm e' (List.mem_cons_of_mem e₀ he')) e he' kw hkw

theorem applyEntry_id (e : List Char × List Char) (s : List Char)
    (h : ∀ kw ∈ tableKeywords, noMatchB kw e.1 false s = true) :
    applyEntry s e = s := by
  show substKw "INTO".data e.1 e.2 false
      (substKw "UPDATE".data e.1 e.2 false
        (substKw "JOIN".data e.1 e.2 false
          (substKw "FROM".data e.1 e.2 false s))) = s
  rw [substKw_id_of_noMatch "FROM".data e.1 e.2 s false (h _ (by decide)),
    substKw_id_of_noMatch "JOIN".data e.1 e.2 s false (h _ (by decide)),
    substKw_id_of_noMatch "UPDATE".data e.1 e.2 s false (h _ (by decide)),
    substKw_id_of_noMatch "INTO".data e.1 e.2 s false (h _ (by decide))]

theorem correctSql_id :
    ∀ (m : List (List Char × List Char)) (s : List Char),
      (∀ e ∈ m, ∀ kw ∈ tableKeywords, noMatchB kw e.1 false s = true) →
      correctSql m s = s := by
  intro m
  induction m with
  | nil => intro s _; rfl
  | cons e m' ih =>
    intro s h
    show correctSql m' (applyEntry s e) = s
    rw [applyEntry_id e s (h e (List.mem_cons_self e m'))]
    exact ih s (fun e' he' kw hkw => h e' (List.mem_cons_of_mem e he') kw hkw)

theorem mem_insertOrUpdate : ∀ (m : List (List Char × List Char))
    (p : List Char × List Char) (k v : List Char),
    p ∈ insertOrUpdate k v m → p = (k, v) ∨ p ∈ m := by
  intro m
  induction m with
  | nil =>
    intro p k v hp
    exact Or.inl (List.mem_singleton.mp hp)
  | cons e rest ih =>
    intro p k v hp
    obtain ⟨k', v'⟩ := e
    simp only [insertOrUpdate] at hp
    by_cases hk : k' = k
    · rw [if_pos hk] at hp
      rcases List.mem_cons.mp hp with h | h
      · exact Or.inl h
      · exact Or.inr (List.mem_cons_of_mem _ h)
    · rw [if_neg hk] at hp
      rcases List.mem_cons.mp hp with h | h
      · exact Or.inr (by rw [h]; exact List.mem_cons_self _ _)
      · rcases ih p k v h with h' | h'
        · exact Or.inl h'
        · exact Or.inr (List.mem_cons_of_mem _ h')

theorem insertOrUpdate_key : ∀ (m : List (List Char × List Char)) (k v : List Char),
    ∃ a, (k, a) ∈ insertOrUpdate k v m := by
  intro m
  induction m with
  | nil => intro k v; exact ⟨v, List.mem_singleton.mpr rfl⟩
  | cons e rest ih =>
    intro k v
    obtain ⟨k', v'⟩ := e
    simp only [insertOrUpdate]
    by_cases hk : k' = k
    · rw [if_pos hk]
      exact ⟨v, List.mem_cons_self _ _⟩
    · rw [if_neg hk]
      obtain ⟨a, ha⟩ := ih k v
      exact ⟨a, List.mem_cons_of_mem _ ha⟩

theorem insertOrUpdate_key_mono : ∀ (m : List (List Char × List Char))
    (k0 k v : List Char),
    (∃ a, (k0, a) ∈ m) → ∃ a, (k0, a) ∈ insertOrUpdate k v m := by
  intro m
  induction m with
  | nil =>
    intro k0 k v h
    obtain ⟨a, ha⟩ := h
    exact absurd ha (List.not_mem_nil _)
  | cons e rest ih =>
    intro k0 k v h
    obtain ⟨a, ha⟩ := h
    obtain ⟨k', v'⟩ := e
    simp only [insertOrUpdate]
    by_cases hk : k' = k
    · rw [if_pos hk]
      rcases List.mem_cons.mp ha with h' | h'
      · have h1 : k0 = k' := congrArg Prod.fst h'
        refine ⟨v, ?_⟩
        rw [h1, hk]
        exact List.mem_cons_self _ _
      · exact ⟨a, List.mem_cons_of_mem _ h'⟩
    · rw [if_neg hk]
      rcases List.mem_cons.mp ha with h' | h'
      · exact ⟨a, by rw [h']; exact List.mem_cons_self _ _⟩
      · obtain ⟨a', ha'⟩ := ih k0 k v ⟨a, h'⟩
        exact ⟨a', List.mem_cons_of_mem _ ha'⟩

theorem buildMapping_fold_mem : ∀ (names : List (List Char))
    (m0 : List (List Char × List Char)) (p : List Char × List Char),
    p ∈ List.foldl (fun m name =>
        if name ≠ [] then
          if stripHexSuffix name ≠ name then
            insertOrUpdate (pyUpperSeg (stripHexSuffix name)) name m
          else m
        else m) m0 names →
    p ∈ m0 ∨ (p.2 ∈ names ∧ stripHexSuffix p.2 ≠ p.2 ∧
      p.1 = pyUpperSeg (stripHexSuffix p.2)) := by
  intro names
  induction names with
  | nil => intro m0 p hp; exact Or.inl hp
  | cons n ns ih =>
    intro m0 p hp
    simp only [List.foldl_cons] at hp
    rcases ih _ p hp with h | h
    · by_cases h1 : n ≠ []
      · rw [if_pos h1] at h
        by_cases h2 : stripHexSuffix n ≠ n
        · rw [if_pos h2] at h
          rcases mem_insertOrUpdate m0 p _ n h with h' | h'
          · right
            rw [h']
            exact ⟨List.mem_cons_self n ns, h2, rfl⟩
          · exact Or.inl h'
        · rw [if_neg h2] at h
          exact Or.inl h
      · rw [if_neg h1] at h
        exact Or.inl h
    · exact Or.inr ⟨List.mem_cons_of_mem n h.1, h.2.1, h.2.2⟩

theorem buildMapping_fold_mono : ∀ (names : List (List Char))
    (m0 : List (List Char × List Char)) (k : List Char),
    (∃ a, (k, a) ∈ m0) →
    ∃ a, (k, a) ∈ List.foldl (fun m name =>
        if name ≠ [] then
          if stripHexSuffix name ≠ name then
            insertOrUpdate (pyUpperSeg (stripHexSuffix name)) name m
          else m
        else m) m0 names := by
  intro names
  induction names with
  | nil => intro m0 k h; exact h
  | cons n ns ih =>
    intro m0 k h
    simp only [List.foldl_cons]
    apply ih
    by_cases h1 : n ≠ []
    · rw [if_pos h1]
      by_cases h2 : stripHexSuffix n ≠ n
      · rw [if_pos h2]
        exact insertOrUpdate_key_mono m0 k _ n h
      · rw [if_neg h2]
        exact h
    · rw [if_neg h1]
      exact h

theorem buildMapping_fold_key : ∀ (names : List (List Char))
    (m0 : List (List Char × List Char)) (name : List Char),
    name ∈ names → name ≠ [] → stripHexSuffix name ≠ name →
    ∃ a, (pyUpperSeg (stripHexSuffix name), a) ∈ List.foldl (fun m name =>
        if name ≠ [] then
          if stripHexSuffix name ≠ name then
            insertOrUpdate (pyUpperSeg (stripHexSuffix name)) name m
          else m
        else m) m0 names := by
  intro names
  induction names with
  | nil =>
    intro m0 name h
    exact absurd h (List.not_mem_nil _)
  | cons n ns ih =>
    intro m0 name hmem hne hstrip
    simp only [List.foldl_cons]
    rcases List.mem_cons.mp hmem with rfl | hmem'
    · apply buildMapping_fold_mono
      rw [if_pos hne, if_pos hstrip]
      exact insertOrUpdate_key m0 _ name
    · exact ih _ name hmem' hne hstrip

theorem matchAt_state_true (kw base s : List Char) (n : Nat)
    (hbne : base ≠ []) (hbw : base.all isWordChar = true)
    (h : matchAt kw base s = some n) :
    isWordChar ((s.take n).getLastD ' ') = true := by
  obtain ⟨kseg, sp, bseg, v, hE, hk, hspne, hsp, hb, hbound, hmn⟩ :=
    matchAt_decomp kw base s n h
  have hbsw : bseg.all isWordChar = true := all_word_of_ciEqSeg bseg base hb hbw
  have hbsne : bseg ≠ [] := by
    intro h0
    have hl := ciEqSeg_length bseg base hb
    rw [h0] at hl
    exact hbne (List.length_eq_zero.mp hl.symm)
  have htake : s.take n = kseg ++ sp ++ bseg := by
    rw [hE, hmn,
      show kseg.length + sp.length + bseg.length
        = (kseg ++ sp ++ bseg).length by simp only [List.length_append]]
    exact List.take_left _ _
  rw [htake]
  obtain ⟨b', bl, hbl⟩ : ∃ b' bl, bseg = b' ++ [bl] := by
    rcases List.eq_nil_or_concat bseg with h0 | ⟨LL, x, hx⟩
    · exact absurd h0 hbsne
    · exact ⟨LL, x, by rw [hx, List.concat_eq_append]⟩
  rw [hbl,
    show kseg ++ sp ++ (b' ++ [bl]) = (kseg ++ sp ++ b') ++ [bl] by
      simp [List.append_assoc],
    getLastD_snoc]
  exact List.all_eq_true.mp hbsw bl
    (by rw [hbl]; exact List.mem_append_right b' (List.mem_singleton.mpr rfl))

/-- **C3** (amended). The hallucination correction is idempotent on every
input SQL string for every schema whose mapping entries are well formed
(non-empty generic keys and physical names made of word characters, as
all names produced by the upload pipeline are): applying the correction
twice yields the same string as applying it once. -/
theorem correctSql_idempotent (names : List (List Char)) (sql : List Char)
    (hwf : ∀ e ∈ buildMapping names,
      e.1 ≠ [] ∧ e.1.all isWordChar = true ∧ e.2.all isWordChar = true) :
    correctSql (buildMapping names) (correctSql (buildMapping names) sql)
      = correctSql (buildMapping names) sql :=
  correctSql_id (buildMapping names) (correctSql (buildMapping names) sql)
    (fun e he kw hkw =>
      correctSql_noMatch (buildMapping names) sql hwf e he kw hkw)

/-- **C3**, counterexample to the unrestricted claim: for the schema
`["Q_AB12CD34_EF567890", "ZZ FROM Q_AB12CD34"]` (the second physical
name contains spaces) and the SQL `"FROM ZZ FROM Q"`, the first
correction pass produces `FROM "ZZ FROM Q_AB12CD34"`, whose quoted
interior now matches the first entry's pattern, so a second pass changes
the string again: the correction is not idempotent for every
table-schema list. -/
theorem correctSql_not_idempotent_counterexample :
    correctSql
        (buildMapping ["Q_AB12CD34_EF567890".data, "ZZ FROM Q_AB12CD34".data])
        (correctSql
          (buildMapping
            ["Q_AB12CD34_EF567890".data, "ZZ FROM Q_AB12CD34".data])
          "FROM ZZ FROM Q".data)
      ≠ correctSql
          (buildMapping
            ["Q_AB12CD34_EF567890".data, "ZZ FROM Q_AB12CD34".data])
          "FROM ZZ FROM Q".data := by
  decide

/-- **C3**, witness: a concrete uploaded-style schema name and query on
which the amended idempotence theorem applies. -/
theorem correctSql_idempotent_witness :
    (∀ e ∈ buildMapping ["EMPLOYEES_07A68017".data],
        e.1 ≠ [] ∧ e.1.all isWordChar = true ∧ e.2.all isWordChar = true) ∧
    correctSql (buildMapping ["EMPLOYEES_07A68017".data])
        (correctSql (buildMapping ["EMPLOYEES_07A68017".data])
          "SELECT * FROM EMPLOYEES".data)
      = correctSql (buildMapping ["EMPLOYEES_07A68017".data])
          "SELECT * FROM EMPLOYEES".data :=
  ⟨by decide, correctSql_idempotent ["EMPLOYEES_07A68017".data]
    "SELECT * FROM EMPLOYEES".data (by decide)⟩

/-- **C2** (amended). For well-formed mappings (word-character names):
every mapping entry comes from a hex-suffixed physical name, keyed by the
upper-cased stripped base, and names without the suffix record nothing;
every hex-suffixed name yields a key; a keyword-adjacent occurrence of a
generic at the head of the text is rewritten to the keyword followed by
the double-quoted physical name; and after the correction no
keyword-adjacent occurrence of any generic remains anywhere in the
output. -/
theorem correctSql_rewrites (names : List (List Char)) (sql : List Char)
    (hwf : ∀ e ∈ buildMapping names,
      e.1 ≠ [] ∧ e.1.all isWordChar = true ∧ e.2.all isWordChar = true) :
    (∀ p ∈ buildMapping names,
      p.2 ∈ names ∧ stripHexSuffix p.2 ≠ p.2 ∧
        p.1 = pyUpperSeg (stripHexSuffix p.2)) ∧
    (∀ name ∈ names, name ≠ [] → stripHexSuffix name ≠ name →
      ∃ a, (pyUpperSeg (stripHexSuffix name), a) ∈ buildMapping names) ∧
    (∀ kw ∈ tableKeywords, ∀ e ∈ buildMapping names, ∀ n,
      matchAt kw e.1 sql = some n →
      substKw kw e.1 e.2 false sql
        = (kw ++ ' ' :: '"' :: e.2 ++ ['"']) ++
            substKw kw e.1 e.2 true (sql.drop n)) ∧
    (∀ e ∈ buildMapping names, ∀ kw ∈ tableKeywords,
      noMatchB kw e.1 false (correctSql (buildMapping names) sql) = true) := by
  refine ⟨?_, ?_, ?_, ?_⟩
  · intro p hp
    rcases buildMapping_fold_mem names [] p hp with h | h
    · exact absurd h (List.not_mem_nil p)
    · exact h
  · intro name hmem hne hstrip
    exact buildMapping_fold_key names [] name hmem hne hstrip
  · intro kw _ e he n hmatch
    obtain ⟨he1, he1w, _⟩ := hwf e he
    cases sql with
    | nil =>
      exfalso
      have := matchAt_pos kw e.1 [] n hmatch
      simp only [List.length_nil] at this
      omega
    | cons c cs =>
      rw [substKw_cons_some kw e.1 e.2 c cs n hmatch,
        matchAt_state_true kw e.1 (c :: cs) n he1 he1w hmatch]
      rfl
  · intro e he kw hkw
    exact correctSql_noMatch (buildMapping names) sql hwf e he kw hkw

/-- **C2**, counterexample to the unrestricted claim: with the schema
`["A B_AB12CD34", "A_CD34AB12"]` (the first physical name contains a
space) and the SQL `"FROM A B"`, the input does contain a
keyword-adjacent whole-word occurrence of the generic `A`, and the
mapping does record `A -> A_CD34AB12`, yet the corrected output
`FROM "A B_AB12CD34"` never mentions the double-quoted physical name
`"A_CD34AB12"`: that occurrence of `A` is not rewritten. -/
theorem correctSql_rewrites_counterexample :
    (matchAt "FROM".data "A".data "FROM A B".data).isSome = true ∧
    ("A".data, "A_CD34AB12".data)
        ∈ buildMapping ["A B_AB12CD34".data, "A_CD34AB12".data] ∧
    containsSeg
        (correctSql (buildMapping ["A B_AB12CD34".data, "A_CD34AB12".data])
          "FROM A B".data)
        ('"' :: ("A_CD34AB12".data ++ ['"'])) = false := by
  decide

/-- **C2**, witness: the spec's own `CUSTOMERS_59C96545` example, on
which the amended theorem applies with every hypothesis discharged by
computation. -/
theorem correctSql_rewrites_witness :
    (∀ e ∈ buildMapping ["CUSTOMERS_59C96545".data],
        e.1 ≠ [] ∧ e.1.all isWordChar = true ∧ e.2.all isWordChar = true) ∧
    (∀ e ∈ buildMapping ["CUSTOMERS_59C96545".data], ∀ kw ∈ tableKeywords,
      noMatchB kw e.1 false
        (correctSql (buildMapping ["CUSTOMERS_59C96545".data])
          "SELECT * FROM CUSTOMERS".data) = true) :=
  ⟨by decide, (correctSql_rewrites ["CUSTOMERS_59C96545".data]
    "SELECT * FROM CUSTOMERS".data (by decide)).2.2.2⟩

theorem mem_updEntry {β : Type} : ∀ (st : List (String × β))
    (p : String × β) (k : String) (v : β),
    p ∈ updEntry k v st → p = (k, v) ∨ p ∈ st := by
  intro st
  induction st with
  | nil => intro p k v hp; exact Or.inl (List.mem_singleton.mp hp)
  | cons e rest ih =>
    intro p k v hp
    obtain ⟨k', v'⟩ := e
    simp only [updEntry] at hp
    by_cases hk : k' = k
    · rw [if_pos hk] at hp
      rcases List.mem_cons.mp hp with h | h
      · exact Or.inl h
      · exact Or.inr (List.mem_cons_of_mem _ h)
    · rw [if_neg hk] at hp
      rcases List.mem_cons.mp hp with h | h
      · exact Or.inr (by rw [h]; exact List.mem_cons_self _ _)
      · rcases ih p k v h with h' | h'
        · exact Or.inl h'
        · exact Or.inr (List.mem_cons_of_mem _ h')

theorem minMaxLoop_keys : ∀ (cols : List String) (row : Option (List PyVal))
    (i : Nat) (st out : StatsDict),
    minMaxLoop row i cols st = .ok out →
    ∀ p ∈ out, p.1 ∈ cols ∨ p ∈ st := by
  intro cols
  induction cols with
  | nil =>
    intro row i st out h p hp
    simp only [minMaxLoop] at h
    injection h with h'
    right
    rw [h']
    exact hp
  | cons col rest ih =>
    intro row i st out h p hp
    simp only [minMaxLoop] at h
    cases h1 : pyTupleIndex row (i * 2) with
    | error e => simp only [h1] at h; cases h
    | ok mn =>
      simp only [h1] at h
      cases h2 : pyTupleIndex row (i * 2 + 1) with
      | error e => simp only [h2] at h; cases h
      | ok mx =>
        simp only [h2] at h
        rcases ih row (i + 1) _ out h p hp with h' | h'
        · exact Or.inl (List.mem_cons_of_mem col h')
        · rcases mem_updEntry _ _ _ _ h' with h'' | h''
          · left
            rw [h'']
            exact List.mem_cons_self col rest
          · exact Or.inr h''

theorem aggLoop_keys (statKey : String) (guarded : Bool) :
    ∀ (cols : List String) (row : Option (List PyVal)) (i : Nat)
      (st out : StatsDict),
    aggLoop statKey guarded row i cols st = .ok out →
    ∀ p ∈ out, p.1 ∈ cols ∨ p ∈ st := by
  intro cols
  induction cols with
  | nil =>
    intro row i st out h p hp
    simp only [aggLoop] at h
    injection h with h'
    right
    rw [h']
    exact hp
  | cons col rest ih =>
    intro row i st out h p hp
    simp only [aggLoop] at h
    cases h1 : pyTupleIndex row i with
    | error e => simp only [h1] at h; cases h
    | ok v =>
      simp only [h1] at h
      cases h2 : getEntry col st with
      | some d =>
        simp only [h2] at h
        rcases ih row (i + 1) _ out h p hp with h' | h'
        · exact Or.inl (List.mem_cons_of_mem col h')
        · rcases mem_updEntry _ _ _ _ h' with h'' | h''
          · left
            rw [h'']
            exact List.mem_cons_self col rest
          · exact Or.inr h''
      | none =>
        simp only [h2] at h
        cases guarded with
        | false =>
          rw [if_neg (by decide)] at h
          cases h
        | true =>
          rw [if_pos rfl] at h
          rcases ih row (i + 1) _ out h p hp with h' | h'
          · exact Or.inl (List.mem_cons_of_mem col h')
          · rcases mem_updEntry _ _ _ _ h' with h'' | h''
            · left
              rw [h'']
              exact List.mem_cons_self col rest
            · exact Or.inr h''

theorem minMaxBlock_keys (run : String → Except String (List String × List (List PyVal)))
    (mmc : List String) (t : String) (st : StatsDict)
    (h : minMaxBlock run mmc t = .ok st) :
    ∀ p ∈ st, p.1 ∈ mmc := by
  intro p hp
  simp only [minMaxBlock] at h
  by_cases hc : mmc.isEmpty = true
  · rw [if_pos hc] at h
    injection h with h'
    rw [← h'] at hp
    exact absurd hp (List.not_mem_nil p)
  · rw [if_neg hc] at h
    cases h1 : fetchOne run (minMaxQuery mmc t) with
    | error e => simp only [h1] at h; cases h
    | ok row =>
      simp only [h1] at h
      rcases minMaxLoop_keys mmc row 0 [] st h p hp with h' | h'
      · exact h'
      · exact absurd h' (List.not_mem_nil p)

theorem aggBlock_keys (statKey : String) (guarded : Bool)
    (run : String → Except String (List String × List (List PyVal)))
    (q : String) (cols : List String) (st out : StatsDict)
    (h : aggBlock statKey guarded run q cols st = .ok out) :
    ∀ p ∈ out, p.1 ∈ cols ∨ p ∈ st := by
  intro p hp
  simp only [aggBlock] at h
  by_cases hc : cols.isEmpty = true
  · rw [if_pos hc] at h
    injection h with h'
    right
    rw [h']
    exact hp
  · rw [if_neg hc] at h
    cases h1 : fetchOne run q with
    | error e => simp only [h1] at h; cases h
    | ok row => simp only [h1] at h; exact aggLoop_keys statKey guarded cols row 0 st out h p hp

theorem mem_colsName (pred : TableColumn → Bool) (cols : List TableColumn)
    (k : String) (hk : k ∈ (cols.filter pred).map TableColumn.name) :
    ∃ c ∈ cols, k = c.name := by
  obtain ⟨c, hc, heq⟩ := List.mem_map.mp hk
  exact ⟨c, List.mem_of_mem_filter hc, heq.symm⟩

theorem statsForSchema_keys
    (run : String → Except String (List String × List (List PyVal)))
    (guarded : Bool) (tschema : TableSchema) (t : String) (st : StatsDict)
    (h : statsForSchema run guarded tschema t = .ok st) :
    ∀ p ∈ st, ∃ c ∈ tschema.columns, p.1 = c.name := by
  intro p hp
  simp only [statsForSchema] at h
  cases h1 : minMaxBlock run (minMaxCols tschema.columns) t with
  | error e => simp only [h1] at h; cases h
  | ok st1 =>
    simp only [h1] at h
    cases h2 : aggBlock "avg" guarded run
        (avgQuery (avgCols tschema.columns) t) (avgCols tschema.columns) st1 with
    | error e => simp only [h2] at h; cases h
    | ok st2 =>
      simp only [h2] at h
      rcases aggBlock_keys "sum" guarded run _ _ st2 st h p hp with h' | h'
      · exact mem_colsName aggMatchSum tschema.columns p.1 h'
      · rcases aggBlock_keys "avg" guarded run _ _ st1 st2 h2 p h' with h'' | h''
        · exact mem_colsName aggMatchAvg tschema.columns p.1 h''
        · exact mem_colsName aggMatchMinMax tschema.columns p.1
            (minMaxBlock_keys run _ t st1 h1 p h'')

theorem oracleStatistics_keys (env : OracleConn) (query : String)
    (metadata : List TableSchema) (columns_data : List String) (st : StatsDict)
    (h : oracleStatistics env query metadata columns_data = .ok st) :
    ∀ p ∈ st, ∃ tbl ∈ metadata, ∃ c ∈ tbl.columns, p.1 = c.name := by
  intro p hp
  simp only [oracleStatistics] at h
  by_cases hc : columns_data.isEmpty = true
  · rw [if_pos hc] at h
    injection h with h'
    rw [← h'] at hp
    exact absurd hp (List.not_mem_nil p)
  · rw [if_neg hc] at h
    cases hps : parseSelectStar query.data with
    | none =>
      simp only [hps] at h
      injection h with h'
      rw [← h'] at hp
      exact absurd hp (List.not_mem_nil p)
    | some tchars =>
      simp only [hps] at h
      cases hf : metadata.find?
          (fun tbl => pyUpperSeg tbl.name.data == pyUpperSeg tchars) with
      | none =>
        simp only [hf] at h
        injection h with h'
        rw [← h'] at hp
        exact absurd hp (List.not_mem_nil p)
      | some tschema =>
        simp only [hf] at h
        obtain ⟨c, hcmem, hname⟩ :=
          statsForSchema_keys env.run false tschema (String.mk tchars) st h p hp
        exact ⟨tschema, List.mem_of_find?_eq_some hf, c, hcmem, hname⟩

theorem postgresStatistics_keys (env : PostgresConn) (query : String)
    (metadata : List TableSchema) (columns_data : List String) (st : StatsDict)
    (h : postgresStatistics env query metadata columns_data = .ok st) :
    ∀ p ∈ st, ∃ tbl ∈ metadata, ∃ c ∈ tbl.columns, p.1 = c.name := by
  intro p hp
  simp only [postgresStatistics] at h
  by_cases hc : columns_data.isEmpty = true
  · rw [if_pos hc] at h
    injection h with h'
    rw [← h'] at hp
    exact absurd hp (List.not_mem_nil p)
  · rw [if_neg hc] at h
    cases hps : parseSelectStar query.data with
    | none =>
      simp only [hps] at h
      injection h with h'
      rw [← h'] at hp
      exact absurd hp (List.not_mem_nil p)
    | some tchars =>
      simp only [hps] at h
      cases hf : metadata.find?
          (fun tbl => pyLowerSeg tbl.name.data == pyLowerSeg tchars) with
      | none =>
        simp only [hf] at h
        injection h with h'
        rw [← h'] at hp
        exact absurd hp (List.not_mem_nil p)
      | some tschema =>
        simp only [hf] at h
        obtain ⟨c, hcmem, hname⟩ :=
          statsForSchema_keys env.run true tschema (String.mk tchars) st h p hp
        exact ⟨tschema, List.mem_of_find?_eq_some hf, c, hcmem, hname⟩

theorem pdFrameRows_lengths (cols : List String) (rows : List (List PyVal))
    (out : List (List String)) (h : pdFrameRows cols rows = .ok out) :
    ∀ r ∈ out, r.length = cols.length := by
  intro r hr
  simp only [pdFrameRows] at h
  by_cases hall : rows.all (fun r => r.length == cols.length) = true
  · rw [if_pos hall] at h
    injection h with h'
    rw [← h'] at hr
    obtain ⟨r0, hr0, heq⟩ := List.mem_map.mp hr
    rw [← heq, List.length_map]
    have hb := List.all_eq_true.mp hall r0 hr0
    simp only [beq_iff_eq] at hb
    exact hb
  · rw [if_neg hall] at h
    cases h

theorem pdFrameDicts_lengths (cols : List String) (rows : List Row) :
    ∀ r ∈ pdFrameDicts cols rows, r.length = cols.length := by
  intro r hr
  obtain ⟨r0, _, heq⟩ := List.mem_map.mp hr
  rw [← heq, List.length_map]

theorem oracle_resultSet_inv (env : OracleConn) (query : String)
    (metadata : List TableSchema) (result_limit : Int) (rs : ResultSet)
    (ho : oracleExecuteQuery env query metadata result_limit = (some rs, none)) :
    (∀ row ∈ rs.rows, row.length = rs.columns.length) ∧
    (∀ p ∈ rs.statistics, ∃ tbl ∈ metadata, ∃ c ∈ tbl.columns, p.1 = c.name) := by
  have hoR : oracleRunQuery env query metadata result_limit = .ok rs := by
    cases h : oracleRunQuery env query metadata result_limit with
    | ok rs0 =>
      simp only [oracleExecuteQuery, h] at ho
      injection ho with h1 _
      injection h1 with h1'
      rw [h1']
    | error e =>
      simp only [oracleExecuteQuery, h] at ho
      injection ho with h1 _
      exact Option.noConfusion h1
  simp only [oracleRunQuery] at hoR
  cases hrun : env.run query with
  | error e => simp only [hrun] at hoR; cases hoR
  | ok pr =>
    obtain ⟨columns_data, allRows⟩ := pr
    simp only [hrun] at hoR
    cases hstats : oracleStatistics env query metadata columns_data with
    | error e => simp only [hstats] at hoR; cases hoR
    | ok st =>
      simp only [hstats] at hoR
      cases hpd : pdFrameRows columns_data
          (if result_limit > 0 then allRows.take result_limit.toNat
           else allRows) with
      | error e => simp only [hpd] at hoR; cases hoR
      | ok rws =>
        simp only [hpd] at hoR
        injection hoR with h'
        rw [← h']
        exact ⟨pdFrameRows_lengths columns_data _ rws hpd,
          oracleStatistics_keys env query metadata columns_data st hstats⟩

theorem postgres_resultSet_inv (env : PostgresConn) (query : String)
    (metadata : List TableSchema) (result_limit : Int) (rs : ResultSet)
    (hp : postgresExecuteQuery env query metadata result_limit
      = (some rs, none)) :
    (∀ row ∈ rs.rows, row.length = rs.columns.length) ∧
    (∀ p ∈ rs.statistics, ∃ tbl ∈ metadata, ∃ c ∈ tbl.columns, p.1 = c.name) := by
  have hpR : postgresRunQuery env query metadata result_limit = .ok rs := by
    cases h : postgresRunQuery env query metadata result_limit with
    | ok rs0 =>
      simp only [postgresExecuteQuery, h] at hp
      injection hp with h1 _
      injection h1 with h1'
      rw [h1']
    | error e =>
      simp only [postgresExecuteQuery, h] at hp
      injection hp with h1 _
      exact Option.noConfusion h1
  simp only [postgresRunQuery] at hpR
  cases hrun : env.runDict query with
  | error e => simp only [hrun] at hpR; cases hpR
  | ok pr =>
    obtain ⟨columns_data, allRows⟩ := pr
    simp only [hrun] at hpR
    cases hstats : postgresStatistics env query metadata columns_data with
    | error e => simp only [hstats] at hpR; cases hpR
    | ok st =>
      simp only [hstats] at hpR
      injection hpR with h'
      rw [← h']
      exact ⟨pdFrameDicts_lengths columns_data _,
        postgresStatistics_keys env query metadata columns_data st hstats⟩

/-- **C5.** For every driver behaviour, query, schema list and row limit,
both connectors' execute_query returns either a result set with no error
or `(None, message)`: every failure inside the `try` block — the main
query, the statistics queries, indexing a missing statistics row, the
unguarded Oracle dict update, the DataFrame shape check — surfaces as the
`(None, message)` pair and nothing escapes the boundary. -/
theorem executeQuery_exception_boundary (env : OracleConn)
    (penv : PostgresConn) (query : String) (metadata : List TableSchema)
    (result_limit : Int) :
    ((∃ rs, oracleExecuteQuery env query metadata result_limit
        = (some rs, none)) ∨
      (∃ m, oracleExecuteQuery env query metadata result_limit
        = (none, some m))) ∧
    ((∃ rs, postgresExecuteQuery penv query metadata result_limit
        = (some rs, none)) ∨
      (∃ m, postgresExecuteQuery penv query metadata result_limit
        = (none, some m))) := by
  constructor
  · cases h : oracleRunQuery env query metadata result_limit with
    | ok rs => exact Or.inl ⟨rs, by simp only [oracleExecuteQuery, h]⟩
    | error e => exact Or.inr ⟨e, by simp only [oracleExecuteQuery, h]⟩
  · cases h : postgresRunQuery penv query metadata result_limit with
    | ok rs => exact Or.inl ⟨rs, by simp only [postgresExecuteQuery, h]⟩
    | error e => exact Or.inr ⟨e, by simp only [postgresExecuteQuery, h]⟩

/-- **C6** (amended). Every ResultSet of a successful execute_query call,
in either dialect, has rows whose length equals the column count; its
statistics keys are column names of a schema in the metadata (not
necessarily members of ResultSet.columns, whose casing comes from the
driver); whenever the metadata column names all occur among the result
columns, the statistics keys are a subset of ResultSet.columns. -/
theorem resultSet_invariants (env : OracleConn) (penv : PostgresConn)
    (query : String) (metadata : List TableSchema) (result_limit : Int)
    (rs rs' : ResultSet)
    (ho : oracleExecuteQuery env query metadata result_limit = (some rs, none))
    (hp : postgresExecuteQuery penv query metadata result_limit
      = (some rs', none)) :
    ((∀ row ∈ rs.rows, row.length = rs.columns.length) ∧
     (∀ p ∈ rs.statistics, ∃ tbl ∈ metadata, ∃ c ∈ tbl.columns, p.1 = c.name) ∧
     ((∀ tbl ∈ metadata, ∀ c ∈ tbl.columns, c.name ∈ rs.columns) →
       ∀ p ∈ rs.statistics, p.1 ∈ rs.columns)) ∧
    ((∀ row ∈ rs'.rows, row.length = rs'.columns.length) ∧
     (∀ p ∈ rs'.statistics, ∃ tbl ∈ metadata, ∃ c ∈ tbl.columns, p.1 = c.name) ∧
     ((∀ tbl ∈ metadata, ∀ c ∈ tbl.columns, c.name ∈ rs'.columns) →
       ∀ p ∈ rs'.statistics, p.1 ∈ rs'.columns)) := by
  obtain ⟨hrowsO, hkeysO⟩ :=
    oracle_resultSet_inv env query metadata result_limit rs ho
  obtain ⟨hrowsP, hkeysP⟩ :=
    postgres_resultSet_inv penv query metadata result_limit rs' hp
  refine ⟨⟨hrowsO, hkeysO, ?_⟩, ⟨hrowsP, hkeysP, ?_⟩⟩
  · intro hcons p hp'
    obtain ⟨tbl, htbl, c, hcmem, hname⟩ := hkeysO p hp'
    rw [hname]
    exact hcons tbl htbl c hcmem
  · intro hcons p hp'
    obtain ⟨tbl, htbl, c, hcmem, hname⟩ := hkeysP p hp'
    rw [hname]
    exact hcons tbl htbl c hcmem

/-- **C6**, counterexample to the unrestricted claim: the call succeeds,
the row invariant holds, but the statistics key is `salary` while the
only result column is `SALARY`, so the statistics keys are not a subset
of ResultSet.columns. -/
theorem resultSet_invariants_counterexample :
    oracleExecuteQuery c6mismatchEnv "SELECT * FROM T" c6mismatchMd 10
      = (some ⟨["SALARY"], [["100"]],
          [("salary", [("min", .vnum 1), ("max", .vnum 2)])]⟩, none) ∧
    ¬ ("salary" ∈ (["SALARY"] : List String)) := by
  constructor
  · decide
  · decide

/-- **C6**, witness: a concrete consistent environment in which both
dialects succeed and the amended invariants hold. -/
theorem resultSet_invariants_witness :
    oracleExecuteQuery c6goodO "SELECT * FROM T" c6goodMd 10
      = (some c6rsO, none) ∧
    postgresExecuteQuery c6goodP "SELECT * FROM T" c6goodMd 10
      = (some c6rsP, none) ∧
    (((∀ row ∈ c6rsO.rows, row.length = c6rsO.columns.length) ∧
      (∀ p ∈ c6rsO.statistics,
        ∃ tbl ∈ c6goodMd, ∃ c ∈ tbl.columns, p.1 = c.name) ∧
      ((∀ tbl ∈ c6goodMd, ∀ c ∈ tbl.columns, c.name ∈ c6rsO.columns) →
        ∀ p ∈ c6rsO.statistics, p.1 ∈ c6rsO.columns)) ∧
     ((∀ row ∈ c6rsP.rows, row.length = c6rsP.columns.length) ∧
      (∀ p ∈ c6rsP.statistics,
        ∃ tbl ∈ c6goodMd, ∃ c ∈ tbl.columns, p.1 = c.name) ∧
      ((∀ tbl ∈ c6goodMd, ∀ c ∈ tbl.columns, c.name ∈ c6rsP.columns) →
        ∀ p ∈ c6rsP.statistics, p.1 ∈ c6rsP.columns))) :=
  ⟨by decide, by decide,
    resultSet_invariants c6goodO c6goodP "SELECT * FROM T" c6goodMd 10
      c6rsO c6rsP (by decide) (by decide)⟩
